import Mathlib

/-!
Verification of the `audio_trigger` React-Native application core.

We shallowly embed the message codec (`src/services/udp.ts`,
`parseESPMessage`), the UDP listener lifecycle (`useUDPListener` /
`UDPService`), the audio manifest and playback-channel bookkeeping
(`src/services/audio.ts`, `AudioService`) and the device reconciliation
handler (`src/screens/Home.tsx`, `handleESPMessage` together with the
`espDevices` Redux slice) as executable Lean definitions, and prove or
refute the specification's claims about them.
-/

namespace AudioTrigger

/-! ## UTF-8 decoding

`Buffer.toString('utf8')` in the JavaScript runtime never throws: it decodes
the byte sequence with the WHATWG UTF-8 decoder, emitting U+FFFD REPLACEMENT
CHARACTER for invalid subsequences.  We model that decoder exactly
(replacement on a bad leading byte consumes one byte; a bad continuation
byte is reprocessed as a fresh leading byte; a truncated tail at end of
input yields a single replacement). -/

/-- U+FFFD REPLACEMENT CHARACTER, produced for invalid byte sequences. -/
def repl : Char := Char.ofNat 0xFFFD

/-- Is `b` a UTF-8 continuation byte (`0x80..0xBF`)? -/
def isCont (b : Nat) : Bool := 0x80 ≤ b && b ≤ 0xBF

/-- Lower bound for the second byte of a three-byte sequence led by `b`. -/
def lo3 (b : Nat) : Nat := if b = 0xE0 then 0xA0 else 0x80

/-- Upper bound for the second byte of a three-byte sequence led by `b`
(excludes surrogates). -/
def hi3 (b : Nat) : Nat := if b = 0xED then 0x9F else 0xBF

/-- Lower bound for the second byte of a four-byte sequence led by `b`. -/
def lo4 (b : Nat) : Nat := if b = 0xF0 then 0x90 else 0x80

/-- Upper bound for the second byte of a four-byte sequence led by `b`
(keeps the scalar value below 0x110000). -/
def hi4 (b : Nat) : Nat := if b = 0xF4 then 0x8F else 0xBF

/-- Fuel-driven body of the WHATWG UTF-8 decoder with replacement.  Each
step consumes at least one byte, so `length + 1` fuel always suffices. -/
def utf8DecodeAux : Nat → List Nat → List Char
  | 0, _ => []
  | _ + 1, [] => []
  | fuel + 1, b :: rest =>
    if b < 0x80 then Char.ofNat b :: utf8DecodeAux fuel rest
    else if b < 0xC2 then repl :: utf8DecodeAux fuel rest
    else if b < 0xE0 then
      match rest with
      | [] => [repl]
      | b2 :: rest2 =>
        if isCont b2 then
          Char.ofNat ((b - 0xC0) * 0x40 + (b2 - 0x80)) :: utf8DecodeAux fuel rest2
        else repl :: utf8DecodeAux fuel rest
    else if b < 0xF0 then
      match rest with
      | [] => [repl]
      | b2 :: rest2 =>
        if lo3 b ≤ b2 && b2 ≤ hi3 b then
          match rest2 with
          | [] => [repl]
          | b3 :: rest3 =>
            if isCont b3 then
              Char.ofNat ((b - 0xE0) * 0x1000 + (b2 - 0x80) * 0x40 + (b3 - 0x80))
                :: utf8DecodeAux fuel rest3
            else repl :: utf8DecodeAux fuel rest2
        else repl :: utf8DecodeAux fuel rest
    else if b < 0xF5 then
      match rest with
      | [] => [repl]
      | b2 :: rest2 =>
        if lo4 b ≤ b2 && b2 ≤ hi4 b then
          match rest2 with
          | [] => [repl]
          | b3 :: rest3 =>
            if isCont b3 then
              match rest3 with
              | [] => [repl]
              | b4 :: rest4 =>
                if isCont b4 then
                  Char.ofNat ((b - 0xF0) * 0x40000 + (b2 - 0x80) * 0x1000 +
                      (b3 - 0x80) * 0x40 + (b4 - 0x80))
                    :: utf8DecodeAux fuel rest4
                else repl :: utf8DecodeAux fuel rest3
            else repl :: utf8DecodeAux fuel rest2
        else repl :: utf8DecodeAux fuel rest
    else repl :: utf8DecodeAux fuel rest

/-- WHATWG UTF-8 decode with replacement, the semantics of
`Buffer.toString('utf8')`: total, never fails. -/
def utf8DecodeReplace (l : List Nat) : List Char :=
  utf8DecodeAux (l.length + 1) l

/-- Fuel-driven strict UTF-8 validity check (mirrors `utf8DecodeAux`). -/
def validUtf8Aux : Nat → List Nat → Bool
  | 0, _ => false
  | _ + 1, [] => true
  | fuel + 1, b :: rest =>
    if b < 0x80 then validUtf8Aux fuel rest
    else if b < 0xC2 then false
    else if b < 0xE0 then
      match rest with
      | [] => false
      | b2 :: rest2 => isCont b2 && validUtf8Aux fuel rest2
    else if b < 0xF0 then
      match rest with
      | [] => false
      | b2 :: rest2 =>
        (lo3 b ≤ b2 && b2 ≤ hi3 b) &&
          match rest2 with
          | [] => false
          | b3 :: rest3 => isCont b3 && validUtf8Aux fuel rest3
    else if b < 0xF5 then
      match rest with
      | [] => false
      | b2 :: rest2 =>
        (lo4 b ≤ b2 && b2 ≤ hi4 b) &&
          match rest2 with
          | [] => false
          | b3 :: rest3 =>
            isCont b3 &&
              match rest3 with
              | [] => false
              | b4 :: rest4 => isCont b4 && validUtf8Aux fuel rest4
    else false

/-- Strict UTF-8 validity of a byte sequence (no replacement needed
anywhere). -/
def validUtf8 (l : List Nat) : Bool :=
  validUtf8Aux (l.length + 1) l


/-! ## JavaScript values and `JSON.parse`

The structured wire format is decoded with `JSON.parse`, which yields a
dynamically typed value.  `JValue` models the JSON-producible JavaScript
values; JSON numbers carry their exact decimal value as a rational (the
codec never computes with them, it only tests truthiness and passes them
through, so exact decimal semantics is faithful). -/

/-- A JavaScript value as produced by `JSON.parse`. -/
inductive JValue where
  | null : JValue
  | bool (b : Bool) : JValue
  | num (q : ℚ) : JValue
  | str (s : List Char) : JValue
  | arr (elems : List JValue) : JValue
  | obj (fields : List (List Char × JValue)) : JValue

/-- JavaScript truthiness of a defined value (`null`, `false`, `0` and the
empty string are falsy; every object and array is truthy). -/
def JValue.truthy : JValue → Bool
  | .null => false
  | .bool b => b
  | .num q => q.num ≠ 0
  | .str s => s ≠ []
  | .arr _ => true
  | .obj _ => true

/-- JavaScript truthiness of a possibly-`undefined` value (`none` models
`undefined`, which is falsy). -/
def jsTruthy : Option JValue → Bool
  | none => false
  | some v => v.truthy

/-- Property access `v.k` on a JavaScript value: defined only for object
fields, `undefined` (`none`) otherwise.  `JSON.parse` keeps the last
occurrence of a duplicated key, hence the reversed lookup.  (Accessing a
property of `null` actually throws in JavaScript, but in `parseESPMessage`
that access sits inside the same `try` that wraps `JSON.parse`, and both
the throw and the `undefined` produce the same `null` result, so modelling
it as `undefined` is observationally exact there.) -/
def jsGet : JValue → List Char → Option JValue
  | .obj fields, k => (fields.reverse.find? (fun f => f.1 = k)).map (·.2)
  | _, _ => none

/-- Skip JSON whitespace (space, tab, line feed, carriage return). -/
def skipWs : List Char → List Char
  | c :: rest =>
    if c = ' ' || c = '\t' || c = '\n' || c = '\r' then skipWs rest
    else c :: rest
  | [] => []

/-- One hexadecimal digit. -/
def hexDigit? (c : Char) : Option Nat :=
  let n := c.toNat
  if 48 ≤ n ∧ n ≤ 57 then some (n - 48)
  else if 97 ≤ n ∧ n ≤ 102 then some (n - 87)
  else if 65 ≤ n ∧ n ≤ 70 then some (n - 55)
  else none

/-- Decimal digit test. -/
def isDigit (c : Char) : Bool := '0' ≤ c && c ≤ '9'

/-- Parse a run of decimal digits, returning them and the rest. -/
def takeDigits : List Char → List Char × List Char
  | [] => ([], [])
  | c :: rest =>
    if isDigit c then
      let (ds, r) := takeDigits rest
      (c :: ds, r)
    else ([], c :: rest)

/-- Numeric value of a digit run. -/
def digitsToNat (ds : List Char) : Nat :=
  ds.foldl (fun acc c => acc * 10 + (c.toNat - '0'.toNat)) 0

/-- Opening curly brace character. -/
def lcurly : Char := Char.ofNat 0x7B

/-- Closing curly brace character. -/
def rcurly : Char := Char.ofNat 0x7D

/-- Four hexadecimal digits, as in a `\uXXXX` escape. -/
def hex4? : List Char → Option (Nat × List Char)
  | h1 :: h2 :: h3 :: h4 :: rest =>
    match hexDigit? h1, hexDigit? h2, hexDigit? h3, hexDigit? h4 with
    | some a, some b, some c, some d => some (a * 4096 + b * 256 + c * 16 + d, rest)
    | _, _, _, _ => none
  | _ => none

/-- Parse the body of a JSON string (after the opening quote), handling the
escapes accepted by `JSON.parse`.  A surrogate-pair escape is combined into
one scalar; a lone surrogate escape (which JavaScript would keep as an
unpaired UTF-16 code unit, unrepresentable in `Char`) is mapped to U+FFFD —
no claim in this development involves lone surrogates. -/
def parseStringRest : Nat → List Char → Option (List Char × List Char)
  | 0, _ => none
  | _ + 1, [] => none
  | fuel + 1, c :: rest =>
    let cont := fun (ch : Char) (r : List Char) =>
      (parseStringRest fuel r).map (fun p => (ch :: p.1, p.2))
    if c = '"' then some ([], rest)
    else if c = '\\' then
      match rest with
      | [] => none
      | e :: rest2 =>
        if e = '"' then cont '"' rest2
        else if e = '\\' then cont '\\' rest2
        else if e = '/' then cont '/' rest2
        else if e = 'b' then cont (Char.ofNat 8) rest2
        else if e = 'f' then cont (Char.ofNat 12) rest2
        else if e = 'n' then cont '\n' rest2
        else if e = 'r' then cont '\r' rest2
        else if e = 't' then cont '\t' rest2
        else if e = 'u' then
          match hex4? rest2 with
          | none => none
          | some (u, rest3) =>
            if 0xD800 ≤ u && u ≤ 0xDBFF then
              match rest3 with
              | '\\' :: 'u' :: tail =>
                match hex4? tail with
                | some (u2, rest4) =>
                  if 0xDC00 ≤ u2 && u2 ≤ 0xDFFF then
                    cont (Char.ofNat (0x10000 + (u - 0xD800) * 0x400 + (u2 - 0xDC00))) rest4
                  else cont repl rest3
                | none => cont repl rest3
              | _ => cont repl rest3
            else if 0xDC00 ≤ u && u ≤ 0xDFFF then cont repl rest3
            else cont (Char.ofNat u) rest3
        else none
    else if c.toNat < 0x20 then none
    else cont c rest

/-- Parse a JSON number token (strict `JSON.parse` grammar: no leading
zeros, no leading `+`, mandatory digits around `.` and after `e`).  The
value is assembled with `Rat.divInt` over integers so that concrete runs
reduce inside the kernel. -/
def parseNumber (l : List Char) : Option (ℚ × List Char) :=
  let signRest : Int × List Char := match l with
    | '-' :: r => (-1, r)
    | _ => (1, l)
  match signRest.2 with
  | [] => none
  | c :: r =>
    if ¬ isDigit c then none
    else
      let ir : Nat × List Char :=
        if c = '0' then (0, r)
        else
          let dr := takeDigits r
          (digitsToNat (c :: dr.1), dr.2)
      let fr : Option (Nat × Nat × List Char) :=
        match ir.2 with
        | '.' :: rf =>
          let dr := takeDigits rf
          if dr.1 = [] then none
          else some (digitsToNat dr.1, dr.1.length, dr.2)
        | r2 => some (0, 0, r2)
      match fr with
      | none => none
      | some (fracVal, fracLen, r3) =>
        let er : Option (Bool × Nat × List Char) :=
          match r3 with
          | e :: re =>
            if e = 'e' || e = 'E' then
              let se : Bool × List Char := match re with
                | '+' :: rr => (false, rr)
                | '-' :: rr => (true, rr)
                | _ => (false, re)
              let dr := takeDigits se.2
              if dr.1 = [] then none
              else some (se.1, digitsToNat dr.1, dr.2)
            else some (false, 0, r3)
          | [] => some (false, 0, [])
        match er with
        | none => none
        | some (eneg, emag, r4) =>
          let mantissa : Int := signRest.1 * Int.ofNat (ir.1 * 10 ^ fracLen + fracVal)
          let q : ℚ :=
            if eneg then Rat.divInt mantissa (Int.ofNat (10 ^ fracLen * 10 ^ emag))
            else Rat.divInt (mantissa * Int.ofNat (10 ^ emag)) (Int.ofNat (10 ^ fracLen))
          some (q, r4)

mutual

/-- Fuel-driven JSON value parser (the recursive core of `JSON.parse`). -/
def parseJValue : Nat → List Char → Option (JValue × List Char)
  | 0, _ => none
  | fuel + 1, l =>
    match skipWs l with
    | 'n' :: 'u' :: 'l' :: 'l' :: r => some (.null, r)
    | 't' :: 'r' :: 'u' :: 'e' :: r => some (.bool true, r)
    | 'f' :: 'a' :: 'l' :: 's' :: 'e' :: r => some (.bool false, r)
    | '"' :: r => (parseStringRest (r.length + 1) r).map (fun p => (.str p.1, p.2))
    | '[' :: r =>
      (match skipWs r with
       | ']' :: r2 => some (.arr [], r2)
       | r1 => (parseElems fuel r1).map (fun p => (.arr p.1, p.2)))
    | c :: r =>
      if c = lcurly then
        match skipWs r with
        | c2 :: r2 =>
          if c2 = rcurly then some (.obj [], r2)
          else (parseFields fuel (c2 :: r2)).map (fun p => (.obj p.1, p.2))
        | [] => none
      else (parseNumber (c :: r)).map (fun p => (.num p.1, p.2))
    | [] => none

/-- Comma-separated JSON array elements up to the closing bracket. -/
def parseElems : Nat → List Char → Option (List JValue × List Char)
  | 0, _ => none
  | fuel + 1, l =>
    match parseJValue fuel l with
    | none => none
    | some (v, r) =>
      match skipWs r with
      | ',' :: r2 => (parseElems fuel r2).map (fun p => (v :: p.1, p.2))
      | ']' :: r2 => some ([v], r2)
      | _ => none

/-- Comma-separated JSON object members up to the closing brace.  Duplicate
keys are kept in order; lookup (`jsGet`) takes the last one, as `JSON.parse`
does. -/
def parseFields : Nat → List Char → Option (List (List Char × JValue) × List Char)
  | 0, _ => none
  | fuel + 1, l =>
    match skipWs l with
    | '"' :: r =>
      (match parseStringRest (r.length + 1) r with
       | none => none
       | some (k, r2) =>
         match skipWs r2 with
         | ':' :: r3 =>
           (match parseJValue fuel r3 with
            | none => none
            | some (v, r4) =>
              match skipWs r4 with
              | ',' :: r5 => (parseFields fuel r5).map (fun p => ((k, v) :: p.1, p.2))
              | c :: r5 => if c = rcurly then some ([(k, v)], r5) else none
              | [] => none)
         | _ => none)
    | _ => none

end

/-- `JSON.parse` on a decoded text: parse one value, allow only trailing
whitespace, reject (`none` models a thrown `SyntaxError`) otherwise. -/
def jsonParse (l : List Char) : Option JValue :=
  match parseJValue (2 * l.length + 2) l with
  | some (v, r) => if skipWs r = [] then some v else none
  | none => none

/-! ## The message codec (`parseESPMessage`, `src/services/udp.ts` 23-75)

The parsed event.  TypeScript declares `deviceId: string` and
`timestamp: number`, but the structured branch copies `data.deviceId` and a
truthy `data.timestamp` into the event without a type check, so at runtime
those fields hold whatever JavaScript value the wire supplied; we model
them as `JValue` accordingly.  `batteryLevel` is optional (`none` models
`undefined`). -/

structure ESPMessage where
  deviceId : JValue
  buttonPressed : Bool
  timestamp : JValue
  batteryLevel : Option JValue

/-- `pat.isPrefixOf`-like check: does `s` start with `pat`? -/
def listStartsWith : List Char → List Char → Bool
  | [], _ => true
  | _ :: _, [] => false
  | p :: ps, c :: cs => p == c && listStartsWith ps cs

/-- JavaScript `String.prototype.split` with a single-character separator
(`"".split(c)` is `[""]`, separators at the ends produce empty pieces). -/
def splitOnChar (sep : Char) : List Char → List (List Char)
  | [] => [[]]
  | c :: rest =>
    if c = sep then [] :: splitOnChar sep rest
    else
      match splitOnChar sep rest with
      | [] => [[c]]
      | s :: ss => (c :: s) :: ss

/-- The compact-format marker `"BUTTON:"`. -/
def buttonMarker : List Char := "BUTTON:".toList

/-- Key `"deviceId"`. -/
def deviceIdKey : List Char := "deviceId".toList

/-- Key `"buttonPressed"`. -/
def buttonPressedKey : List Char := "buttonPressed".toList

/-- Key `"timestamp"`. -/
def timestampKey : List Char := "timestamp".toList

/-- Key `"batteryLevel"`. -/
def batteryLevelKey : List Char := "batteryLevel".toList

/-- `parseESPMessage` (`src/services/udp.ts` 23-75): decode the datagram
bytes with the replacing UTF-8 decoder, try the compact
`BUTTON:<id>:<state>` format, otherwise fall back to `JSON.parse` plus the
runtime validation `!data.deviceId || typeof data.buttonPressed !==
'boolean'`; `timestamp` uses `data.timestamp || Date.now()` and
`batteryLevel` is passed through unchanged.  `now` is `Date.now()` at
receipt.  Every failure path returns `none` (the function catches all
exceptions and returns `null`). -/
def parseESPMessage (bytes : List Nat) (now : ℚ) : Option ESPMessage :=
  let s := utf8DecodeReplace bytes
  if listStartsWith buttonMarker s then
    let parts := splitOnChar ':' s
    if 3 ≤ parts.length then
      some { deviceId := .str (parts.getD 1 [])
             buttonPressed := parts.getD 2 [] == ['1']
             timestamp := .num now
             batteryLevel := some (.num 1) }
    else none
  else
    match jsonParse s with
    | none => none
    | some data =>
      match jsGet data deviceIdKey, jsGet data buttonPressedKey with
      | some dv, some (.bool b) =>
        if dv.truthy then
          some { deviceId := dv
                 buttonPressed := b
                 timestamp :=
                   match jsGet data timestampKey with
                   | some tv => if tv.truthy then tv else .num now
                   | none => .num now
                 batteryLevel := jsGet data batteryLevelKey }
        else none
      | _, _ => none


/-! ## The audio service (`src/services/audio.ts`)

Manifest entries, the active-channel table and the decode-buffer cache.
The manifest (`metadata.json`) is written whole-file as a JSON array; we
model its content structurally (serialisation of these records is the
identity round-trip and the service never relies on its textual form). -/

/-- A manifest entry (`AudioFile` in `src/services/audio.ts`).  `deviceId`
and `loopMode` are optional fields; `mapFileToDevice` writes `undefined`
(`none`) to clear a mapping.  String fields are modelled as character
lists. -/
structure AudioFile where
  id : List Char
  url : List Char
  title : List Char
  deviceId : Option (List Char)
  loopMode : Option Bool
deriving DecidableEq

/-- An entry of the `activeSounds` table (`ActiveSound`): the owning device
and whether the underlying `source.stop(0)` call would throw when invoked
(the behaviour of the opaque playback handle). -/
structure ActiveSound where
  id : List Char
  deviceId : List Char
  stopThrows : Bool
deriving DecidableEq

/-- In-place update of one list position, the JS `arr[i] = v` on a copied
array. -/
def modifyAt : List α → Nat → (α → α) → List α
  | [], _, _ => []
  | x :: xs, 0, g => g x :: xs
  | x :: xs, n + 1, g => x :: modifyAt xs n g

/-- `AudioService.mapFileToDevice` (`src/services/audio.ts` 209-269) on the
loaded manifest: find another file currently mapped to `deviceId`, find the
target file, fail (`none`, the `false` return) if the target is absent,
otherwise clear the other file's mapping and set the target's.  The caller
then persists the returned manifest. -/
def mapFileToDevice (files : List AudioFile) (fileId deviceId : List Char) :
    Option (List AudioFile) :=
  let previouslyMappedIndex :=
    files.findIdx? fun f => f.deviceId == some deviceId && f.id != fileId
  let fileToMapIndex := files.findIdx? fun f => f.id == fileId
  match fileToMapIndex with
  | none => none
  | some ti =>
    let updatedFiles :=
      match previouslyMappedIndex with
      | some pi => modifyAt files pi fun f => { f with deviceId := none }
      | none => files
    some (modifyAt updatedFiles ti fun f => { f with deviceId := some deviceId })

/-- No two distinct manifest entries share an id. -/
def idsNodup : List AudioFile → Bool
  | [] => true
  | f :: rest => rest.all (fun g => g.id != f.id) && idsNodup rest

/-- No two distinct manifest entries are mapped to the same device (the
file→device edges form a partial injective mapping; `deviceId` being a
single optional field already gives "each file maps to at most one
device"). -/
def devicesInjective : List AudioFile → Bool
  | [] => true
  | f :: rest =>
    (f.deviceId == none || rest.all (fun g => g.deviceId != f.deviceId)) &&
      devicesInjective rest

/-- The manifest well-formedness invariant from the specification's data
model. -/
def manifestInv (files : List AudioFile) : Prop :=
  idsNodup files = true ∧ devicesInjective files = true


/-! ### Active-channel bookkeeping (`stopSound`, `stopPlayback`)

`activeSounds` is a JavaScript `Map` keyed by file id (every stored entry
has `entry.id` equal to its key); we model it as the list of its entries in
insertion order.  `Map.delete` removes the entry for the key — a `Map`
holds at most one. -/

/-- `Map.delete(fileId)` on the entry list: drop every entry carrying the
key (a real `Map` has at most one). -/
def mapDelete (table : List ActiveSound) (fileId : List Char) : List ActiveSound :=
  table.filter (fun s => s.id != fileId)

/-- `AudioService.stopSound` (`src/services/audio.ts` 516-533): look the
channel up; if present, call `source.stop(0)` inside `try`/`catch` (a throw
is caught and logged) and delete the bookkeeping entry in `finally`.
Returns the new table, the list of channels whose stop was attempted and
the list of channels whose stop threw (and was caught).  The function never
propagates an exception. -/
def stopSound (table : List ActiveSound) (fileId : List Char) :
    List ActiveSound × List (List Char) × List (List Char) :=
  match table.find? (fun s => s.id == fileId) with
  | none => (table, [], [])
  | some s =>
    (mapDelete table fileId, [fileId], if s.stopThrows then [fileId] else [])

/-- The loop of `AudioService.stopPlayback`: snapshot the keys
(`Array.from(activeSounds.keys())`) and run `stopSound` on each,
accumulating the attempt and caught-error logs. -/
def stopFold (table : List ActiveSound) :
    List ActiveSound × List (List Char) × List (List Char) :=
  (table.map (fun s => s.id)).foldl
    (fun acc k =>
      let r := stopSound acc.1 k
      (r.1, acc.2.1 ++ r.2.1, acc.2.2 ++ r.2.2))
    (table, [], [])

/-- `AudioService.stopPlayback` (`src/services/audio.ts` 557-585): snapshot
the keys, stop each one, then defensively clear whatever is left. -/
def stopPlayback (table : List ActiveSound) :
    List ActiveSound × List (List Char) × List (List Char) :=
  let folded := stopFold table
  (if folded.1.isEmpty then folded.1 else [], folded.2.1, folded.2.2)

/-- `AudioService.getPlayingDevices` (`src/services/audio.ts` 625-631):
the deviceIds of the active channels, deduplicated via a `Set` (first
occurrence wins) and returned as an array. -/
def getPlayingDevices (table : List ActiveSound) : List (List Char) :=
  (table.map (·.deviceId)).foldl (fun acc d => if d ∈ acc then acc else acc ++ [d]) []

/-! ### Import / delete lifecycle (`addAudioFile`, `deleteAudioFile`)

The state visible to the audio service: managed storage (the set of
existing file paths), the manifest file `metadata.json` (structured
content; `none` = file absent), the decode-buffer cache keys and the
active-channel table. -/

structure AudioState where
  storage : List (List Char)
  manifest : Option (List AudioFile)
  buffers : List (List Char)
  sounds : List ActiveSound
deriving DecidableEq

/-- `RNFS.DocumentDirectoryPath`, an opaque base path. -/
def documentDirectoryPath : List Char := ['/', 'd', 'o', 'c', 's']

/-- `AUDIO_DIRECTORY` (`src/services/audio.ts` 27). -/
def audioDirectory : List Char :=
  documentDirectoryPath ++ ['/', 'a', 'u', 'd', 'i', 'o', '_', 'f', 'i', 'l', 'e', 's']

/-- The `file://` url scheme prepended on import. -/
def fileScheme : List Char := ['f', 'i', 'l', 'e', ':', '/', '/']

/-- `url.replace('file://', '')` as used on manifest urls (which always
carry the scheme as a prefix). -/
def dropFileScheme (u : List Char) : List Char :=
  if listStartsWith fileScheme u then u.drop 7 else u

/-- `AudioService.loadAudioFiles` (`src/services/audio.ts` 74-117): read
the manifest (missing metadata yields `[]`) and keep only entries whose
file still exists in managed storage. -/
def loadAudioFiles (s : AudioState) : List AudioFile :=
  match s.manifest with
  | none => []
  | some fs => fs.filter (fun f => s.storage.contains (dropFileScheme f.url))

/-- `AudioService.addAudioFile` (`src/services/audio.ts` 120-170) on the
success path: `fileIdToken` models `Date.now().toString()` and `ext`
models `sourceUri.split('.').pop()`.  Copy the bytes to
`AUDIO_DIRECTORY/<id>.<ext>`, then load the existing manifest entries and
write them back with the new entry appended (`loopMode: false`). -/
def addAudioFile (s : AudioState) (fileIdToken ext title : List Char)
    (deviceId : Option (List Char)) : AudioState × AudioFile :=
  let destinationPath := audioDirectory ++ ['/'] ++ fileIdToken ++ ['.'] ++ ext
  let storage1 := destinationPath :: s.storage
  let newFile : AudioFile :=
    { id := fileIdToken, url := fileScheme ++ destinationPath, title := title
      deviceId := deviceId, loopMode := some false }
  let existingFiles := loadAudioFiles { s with storage := storage1 }
  ({ storage := storage1, manifest := some (existingFiles ++ [newFile])
     buffers := s.buffers, sounds := s.sounds }, newFile)

/-- `AudioService.deleteAudioFile` (`src/services/audio.ts` 173-206): load
the manifest, fail if the id is absent, otherwise stop any active channel
for the file, unlink its managed bytes, evict its decode buffer and write
the manifest without it. -/
def deleteAudioFile (s : AudioState) (fileId : List Char) : AudioState × Bool :=
  let existingFiles := loadAudioFiles s
  match existingFiles.find? (fun f => f.id == fileId) with
  | none => (s, false)
  | some fileToDelete =>
    let filePath := dropFileScheme fileToDelete.url
    ({ storage := s.storage.filter (fun p => p != filePath)
       manifest := some (existingFiles.filter (fun f => f.id != fileId))
       buffers := s.buffers.filter (fun b => b != fileId)
       sounds := (stopSound s.sounds fileId).1 }, true)

/-- No trace of a file id (with managed path `path`) anywhere in the audio
service state. -/
def noTrace (s : AudioState) (fileId path : List Char) : Prop :=
  (∀ f ∈ s.manifest.getD [], f.id ≠ fileId) ∧
  path ∉ s.storage ∧
  fileId ∉ s.buffers ∧
  (∀ snd ∈ s.sounds, snd.id ≠ fileId)

/-! ## Device reconciliation (`src/screens/Home.tsx` 76-137)

`handleESPMessage` consumes events typed by the TypeScript `ESPMessage`
interface (string id, boolean press, numeric timestamp, optional numeric
battery) and reconciles them into the Redux `espDevices` slice. -/

/-- The event as typed by the reconciliation layer. -/
structure EspEvent where
  deviceId : String
  buttonPressed : Bool
  timestamp : ℚ
  batteryLevel : Option ℚ

/-- A registry entry (`ESPDevice` in `src/services/storage.ts`). -/
structure ESPDevice where
  id : String
  name : String
  lastSeen : Option ℚ
  batteryLevel : Option ℚ
  audioFileId : Option String
deriving DecidableEq

/-- The `addDevice` reducer (`src/store/slices/espDevices.ts` 29-37):
push unless the id already exists. -/
def addDevice (devices : List ESPDevice) (d : ESPDevice) : List ESPDevice :=
  if devices.any (fun g => g.id == d.id) then devices else devices ++ [d]

/-- The `updateDevice` reducer (`src/store/slices/espDevices.ts` 38-48)
for the payload `{id, lastSeen, batteryLevel}` dispatched by
`handleESPMessage`: merge into the first entry with that id (spreading the
payload overwrites `batteryLevel` even when the event carries none). -/
def updateDevice (devices : List ESPDevice) (id : String) (lastSeen : ℚ)
    (batteryLevel : Option ℚ) : List ESPDevice :=
  match devices.findIdx? (fun g => g.id == id) with
  | none => devices
  | some i =>
    modifyAt devices i (fun d =>
      { d with lastSeen := some lastSeen, batteryLevel := batteryLevel })

/-- The device a reconciliation creates for an unknown id. -/
def newDeviceFor (e : EspEvent) : ESPDevice :=
  { id := e.deviceId, name := "ESP Button " ++ e.deviceId
    lastSeen := some e.timestamp, batteryLevel := e.batteryLevel
    audioFileId := none }

/-- The registry part of `handleESPMessage` (`src/screens/Home.tsx`
76-137): dispatch `addDevice` for an unknown id (whatever the press
state), dispatch `updateDevice` for a known id only on a button press,
otherwise leave the store untouched. -/
def handleESPMessage (devices : List ESPDevice) (e : EspEvent) : List ESPDevice :=
  let existingDevice := devices.find? (fun g => g.id == e.deviceId)
  match existingDevice with
  | some _ =>
    if e.buttonPressed then
      updateDevice devices e.deviceId e.timestamp e.batteryLevel
    else devices
  | none => addDevice devices (newDeviceFor e)

/-- No two registry entries share an id. -/
def deviceIdsNodup : List ESPDevice → Bool
  | [] => true
  | d :: rest => rest.all (fun g => g.id != d.id) && deviceIdsNodup rest

/-! ## The UDP service singleton (`src/services/udp.ts` 268-384)

Deterministic model of `UDPService.stop` / `UDPService.initialize` /
`UDPService.updatePort` over the module-level mutable state.  JavaScript
runs these on a single event loop: the `await` continuations inside
`updatePort` are microtasks and therefore run before the 300 ms macrotask
timer scheduled by `stop` can fire, so updatePort's `stop(); initialize()`
sequence executes to completion with the timer still pending; the timer is
modelled as the separate event `svcStopTimerFire`. -/

structure SvcState where
  /-- `globalPort`. -/
  port : Nat
  /-- `isBindingOrClosing`. -/
  bindingOrClosing : Bool
  /-- `globalIsListening`. -/
  isListening : Bool
  /-- `globalSocket`: `some (p, b)` is a live socket created for port `p`,
  bound when `b`. -/
  socket : Option (Nat × Bool)
  /-- stop()'s pending 300 ms `setTimeout` that will clear the guard. -/
  stopResetPending : Bool
deriving DecidableEq

/-- `UDPService.stop` (`src/services/udp.ts` 367-381): no-op while an
operation is in progress; otherwise set the guard, close the socket, mark
not listening, and schedule the guard reset 300 ms later. -/
def svcStop (s : SvcState) : SvcState :=
  if s.bindingOrClosing then s
  else
    { s with bindingOrClosing := true, socket := none, isListening := false
             stopResetPending := true }

/-- The 300 ms timer scheduled by `UDPService.stop` firing. -/
def svcStopTimerFire (s : SvcState) : SvcState :=
  if s.stopResetPending then
    { s with bindingOrClosing := false, stopResetPending := false }
  else s

/-- `UDPService.initialize` (`src/services/udp.ts` 270-342): no-op while
an operation is in progress; otherwise set the guard, close any socket,
adopt the port from settings, and — unless already listening — create a
socket and bind it (`bindOk` is the outcome reported to the callback),
finally releasing the guard. -/
def svcInitialize (settingsPort : Nat) (bindOk : Bool) (s : SvcState) : SvcState :=
  if s.bindingOrClosing then s
  else
    let s1 := { s with bindingOrClosing := true, socket := none, port := settingsPort }
    if s1.isListening then { s1 with bindingOrClosing := false }
    else if bindOk then
      { s1 with socket := some (settingsPort, true), isListening := true
                bindingOrClosing := false }
    else
      { s1 with socket := none, isListening := false, bindingOrClosing := false }

/-- `UDPService.updatePort` (`src/services/udp.ts` 345-355): no-op when
the port is unchanged; otherwise set `globalPort` and run `await stop();
await initialize()` back to back on the event loop. -/
def svcUpdatePort (newPort settingsPort : Nat) (bindOk : Bool) (s : SvcState) : SvcState :=
  if newPort = s.port then s
  else svcInitialize settingsPort bindOk (svcStop { s with port := newPort })

/-- Is a socket currently bound on port `p`? -/
def boundOn (s : SvcState) (p : Nat) : Bool :=
  s.socket == some (p, true)

/-! ## The listener hook's post-bind error handling
(`src/services/udp.ts` 150-227)

After a successful bind the only reaction to a socket `'error'` event in
`startListener` is the handler at lines 171-174: log and
`setErrorWithTimeout`, which stores a user-visible error string and
(re)schedules its clearing 5 s later.  The module declares a
`reconnectTimeout` variable but no code path ever assigns it, and no code
path counts errors, stops the socket, or schedules a restart. -/

structure HookState where
  isListening : Bool
  socket : Option (Nat × Bool)
  errorMsg : Option String
  /-- the 5 s auto-clear timer of `setErrorWithTimeout`. -/
  errorClearPending : Bool
  /-- a pending automatic restart (`reconnectTimeout`): no code path in
  `src/services/udp.ts` ever sets it. -/
  restartScheduled : Bool
deriving DecidableEq

/-- The `'error'` handler installed by `startListener`
(`src/services/udp.ts` 171-174). -/
def onSocketError (msg : String) (s : HookState) : HookState :=
  { s with errorMsg := some msg, errorClearPending := true }

/-- `n` consecutive post-bind socket errors. -/
def iterateErrors (msg : String) : Nat → HookState → HookState
  | 0, s => s
  | n + 1, s => onSocketError msg (iterateErrors msg n s)

/-! ## Concurrent starts and stops of the listener
(`src/services/udp.ts` 150-247)

`startListener` and `stopListener` run on the single-threaded event loop;
their bodies interleave only at `await` points and scheduled callbacks.
We model each in-flight call as a task whose program counter advances by
atomic segments:

* `startReady` → guard check (`isBindingOrClosing || globalIsListening`);
  on pass: set the guard, `safelyCloseSocket()` (all before the first
  `await`);
* `startLoading` → the continuation after `loadSettings`: create the
  socket, store it in `globalSocket`, call `bind` (a failed settings load
  instead runs the `catch`: close, clear flags, done);
* `startBinding` → the bind callback: on success mark bound and listening,
  on failure close; either way release the guard;
* `stopReady` → guard check; on pass: close the socket, clear listening,
  set the guard, schedule its reset;
* `stopWaiting` → the 300 ms reset timer fires.

`MState.lostBound` counts bound sockets that were overwritten without
being closed — the only way more than one socket could be bound at once,
since the module holds a single `globalSocket` reference. -/

inductive TaskState where
  | startReady | startLoading | startBinding | stopReady | stopWaiting | done
deriving DecidableEq

structure MState where
  /-- `isBindingOrClosing`. -/
  bindingOrClosing : Bool
  /-- `globalIsListening`. -/
  isListening : Bool
  /-- `globalSocket`: `some b`, bound when `b`. -/
  socket : Option Bool
  /-- bound sockets leaked by overwriting `globalSocket` without closing. -/
  lostBound : Nat
deriving DecidableEq

/-- One atomic segment of a task; `ok` resolves the async outcome of the
segment (settings load, bind result). -/
def taskStep (m : MState) (t : TaskState) (ok : Bool) : MState × TaskState :=
  match t with
  | .startReady =>
    if m.bindingOrClosing || m.isListening then (m, .done)
    else ({ m with bindingOrClosing := true, socket := none }, .startLoading)
  | .startLoading =>
    match ok with
    | true =>
      ({ m with
          lostBound := m.lostBound + (if m.socket = some true then 1 else 0)
          socket := some false }, .startBinding)
    | false =>
      ({ m with socket := none, isListening := false, bindingOrClosing := false }, .done)
  | .startBinding =>
    match ok with
    | true =>
      ({ m with socket := some true, isListening := true, bindingOrClosing := false }, .done)
    | false =>
      ({ m with socket := none, isListening := false, bindingOrClosing := false }, .done)
  | .stopReady =>
    if m.bindingOrClosing || !m.isListening then (m, .done)
    else ({ m with socket := none, isListening := false, bindingOrClosing := true }, .stopWaiting)
  | .stopWaiting => ({ m with bindingOrClosing := false }, .done)
  | .done => (m, .done)

/-- A scheduler configuration: the shared module state plus the program
counters of the outstanding calls. -/
def Config := MState × List TaskState

/-- Run the segment of task `i` with async outcome `ok`. -/
def stepAt (c : Config) (i : Nat) (ok : Bool) : Config :=
  match c.2.get? i with
  | some t =>
    let r := taskStep c.1 t ok
    (r.1, modifyAt c.2 i (fun _ => r.2))
  | none => c

/-- The scheduler takes one segment of any unfinished task. -/
def Step (c c' : Config) : Prop :=
  ∃ i ok t, c.2.get? i = some t ∧ t ≠ TaskState.done ∧ c' = stepAt c i ok

/-- How many sockets are currently bound (the live one plus any leaked
ones). -/
def boundCount (m : MState) : Nat :=
  (if m.socket = some true then 1 else 0) + m.lostBound

/-- The pristine module state: no guard, not listening, no socket. -/
def initM : MState := ⟨false, false, none, 0⟩

/-- All configurations reachable from `c` when every async step succeeds,
bounded by `fuel` scheduler steps (enough fuel reaches every terminal). -/
def allTerminalsOk : Nat → Config → List Config
  | 0, c => [c]
  | fuel + 1, c =>
    let live := (List.range c.2.length).filter
      (fun i => c.2.getD i TaskState.done != TaskState.done)
    if live.isEmpty then [c]
    else live.flatMap (fun i => allTerminalsOk fuel (stepAt c i true))

/-- Tasks inside the guarded critical section: they hold the
`isBindingOrClosing` mutual-exclusion flag. -/
def critical : TaskState → Bool
  | .startLoading => true
  | .startBinding => true
  | .stopWaiting => true
  | _ => false

/-- What the shared state looks like while a given task is at a given
program counter. -/
def sockInvAt (m : MState) : TaskState → Prop
  | .startLoading => m.socket = none ∧ m.isListening = false
  | .startBinding => m.socket = some false ∧ m.isListening = false
  | .stopWaiting => m.socket = none ∧ m.isListening = false
  | _ => True

/-- The inductive invariant of the listener lifecycle: at most one task is
in the critical section, the guard flag is set exactly while one is, no
bound socket has ever been leaked, the socket matches the critical task's
phase, and outside the critical section the socket is bound exactly when
the module claims to be listening. -/
def Inv (c : Config) : Prop :=
  c.2.countP critical ≤ 1 ∧
  (c.1.bindingOrClosing = true ↔ c.2.countP critical = 1) ∧
  c.1.lostBound = 0 ∧
  (∀ t ∈ c.2, sockInvAt c.1 t) ∧
  (c.2.countP critical = 0 →
    (c.1.isListening = true → c.1.socket = some true) ∧
    (c.1.isListening = false → c.1.socket = none))

/-! ### Acceptance characterization of the codec -/

/-- Is this runtime value exactly a boolean (`typeof x === 'boolean'`)? -/
def isBoolJ : Option JValue → Bool
  | some (.bool _) => true
  | _ => false

/-- The decoded texts the codec accepts: either the compact format
(`BUTTON:`-prefixed with at least three `:`-separated parts) or JSON with
a truthy `deviceId` and a boolean `buttonPressed`. -/
def codecAccepts (s : List Char) : Bool :=
  if listStartsWith buttonMarker s then 3 ≤ (splitOnChar ':' s).length
  else
    match jsonParse s with
    | some data => jsTruthy (jsGet data deviceIdKey) && isBoolJ (jsGet data buttonPressedKey)
    | none => false

/-- Is this runtime value a string? -/
def JValue.isStr : JValue → Bool
  | .str _ => true
  | _ => false

/-!
# Theorems

One theorem per claim (with counterexamples and witnesses where needed),
preceded by the general-purpose lemmas they share.
-/

/-- C1: evaluating `updatePort` at a changed port from the steady bound
state.  `updatePort(5000)` from a service bound on 4210 closes the old
socket, but the `initialize()` it then awaits returns immediately because
`isBindingOrClosing` is still `true` (its reset is parked on `stop`'s
300 ms timer, which cannot fire before the microtask continuation), so no
socket is ever bound on the new port — even after the timer fires the
service stays unbound and not listening.  This refutes "after the call
completes a socket is bound on the new port"; the unchanged-port call is a
genuine no-op. -/
theorem c1_updatePort_never_rebinds :
    svcUpdatePort 5000 5000 true ⟨4210, false, true, some (4210, true), false⟩ =
      ⟨5000, true, false, none, true⟩ ∧
    boundOn (svcUpdatePort 5000 5000 true ⟨4210, false, true, some (4210, true), false⟩) 5000 =
      false ∧
    (svcUpdatePort 5000 5000 true ⟨4210, false, true, some (4210, true), false⟩).isListening =
      false ∧
    svcStopTimerFire (svcUpdatePort 5000 5000 true ⟨4210, false, true, some (4210, true), false⟩) =
      ⟨5000, false, false, none, false⟩ ∧
    boundOn
      (svcStopTimerFire
        (svcUpdatePort 5000 5000 true ⟨4210, false, true, some (4210, true), false⟩)) 5000 =
      false ∧
    svcUpdatePort 4210 4210 true ⟨4210, false, true, some (4210, true), false⟩ =
      ⟨4210, false, true, some (4210, true), false⟩ := by
  decide

/-- C5 (counterexample): from a bound listener, one hundred consecutive
post-bind socket errors leave the socket bound, the listener listening,
and no automatic restart scheduled — there is no error counter, no
threshold-triggered auto-stop and no delayed restart in the code. -/
theorem c5_counterexample :
    (iterateErrors "UDP Socket Error: EIO" 100 ⟨true, some (4210, true), none, false, false⟩).isListening = true ∧
    (iterateErrors "UDP Socket Error: EIO" 100 ⟨true, some (4210, true), none, false, false⟩).socket = some (4210, true) ∧
    (iterateErrors "UDP Socket Error: EIO" 100 ⟨true, some (4210, true), none, false, false⟩).restartScheduled = false := by
  refine ⟨?_, ?_, ?_⟩ <;> rfl

/-- C5 (amended): after a successful bind, any number of post-bind runtime
socket errors only log and surface a transient user-visible error message
(with its 5-second auto-clear rescheduled); the listener state, the bound
socket and the (never scheduled) automatic restart are untouched — the
manager never auto-stops and never schedules a delayed restart. -/
theorem c5_theorem (msg : String) (n : Nat) (s : HookState) :
    (iterateErrors msg n s).isListening = s.isListening ∧
    (iterateErrors msg n s).socket = s.socket ∧
    (iterateErrors msg n s).restartScheduled = s.restartScheduled ∧
    (0 < n →
      (iterateErrors msg n s).errorMsg = some msg ∧
      (iterateErrors msg n s).errorClearPending = true) := by
  induction n with
  | zero => exact ⟨rfl, rfl, rfl, fun h => absurd h (by decide)⟩
  | succ k ih =>
    refine ⟨ih.1, ih.2.1, ih.2.2.1, fun _ => ⟨rfl, rfl⟩⟩

/-- C5 (witness): the amended statement applied to three errors hitting a
concrete bound listener. -/
theorem c5_witness :
    (iterateErrors "boom" 3 ⟨true, some (1, true), none, false, false⟩).restartScheduled = false ∧
    (iterateErrors "boom" 3 ⟨true, some (1, true), none, false, false⟩).errorMsg = some "boom" :=
  ⟨( c5_theorem ("boom") 3 ⟨true, some (1, true), none, false, false⟩).2.2.1,
   (( c5_theorem ("boom") 3 ⟨true, some (1, true), none, false, false⟩).2.2.2 (by decide)).1⟩

/-! ### `stopAll` empties the channel table (C8) -/

/-- `stopSound` deletes the bookkeeping entry of its file id whether or
not the underlying stop throws. -/
theorem stopSound_removes (table : List ActiveSound) (fid : List Char) :
    ∀ snd ∈ (stopSound table fid).1, snd.id ≠ fid := by
  intro snd hsnd
  unfold stopSound at hsnd
  cases hfind : table.find? (fun s => s.id == fid) with
  | none =>
    rw [hfind] at hsnd
    simp only at hsnd
    have := List.find?_eq_none.mp hfind snd hsnd
    simpa using this
  | some s =>
    rw [hfind] at hsnd
    simp only [mapDelete] at hsnd
    have := List.of_mem_filter hsnd
    simpa using this

/-- Running the `stopPlayback` loop on a table with distinct keys empties
the table and records a stop attempt for every snapshotted key, in order,
whatever each channel's `stop` does. -/
theorem stopFold_run (table : List ActiveSound)
    (h : (table.map (fun s => s.id)).Nodup) :
    ∀ as cs : List (List Char),
      ((table.map (fun s => s.id)).foldl
        (fun acc k =>
          let r := stopSound acc.1 k
          (r.1, acc.2.1 ++ r.2.1, acc.2.2 ++ r.2.2))
        (table, as, cs)).1 = [] ∧
      ((table.map (fun s => s.id)).foldl
        (fun acc k =>
          let r := stopSound acc.1 k
          (r.1, acc.2.1 ++ r.2.1, acc.2.2 ++ r.2.2))
        (table, as, cs)).2.1 = as ++ table.map (fun s => s.id) := by
  induction table with
  | nil => intro as cs; simp
  | cons s rest ih =>
    intro as cs
    have h' : (∀ x ∈ rest, ¬x.id = s.id) ∧ (List.map (fun s => s.id) rest).Nodup := by
      simpa using h
    have hrest : (rest.map (fun s => s.id)).Nodup := h'.2
    have hfind : (s :: rest).find? (fun t => t.id == s.id) = some s := by
      simp [List.find?_cons]
    have hdel : mapDelete (s :: rest) s.id = rest := by
      simp only [mapDelete, List.filter_cons]
      have h1 : (s.id != s.id) = false := by simp
      rw [h1]
      simp only [Bool.false_eq_true, if_false]
      apply List.filter_eq_self.mpr
      intro a ha
      simpa using h'.1 a ha
    have hstep : stopSound (s :: rest) s.id =
        (rest, [s.id], if s.stopThrows then [s.id] else []) := by
      simp [stopSound, hfind, hdel]
    simp only [List.map_cons, List.foldl_cons, hstep]
    have := ih hrest (as ++ [s.id]) (cs ++ if s.stopThrows then [s.id] else [])
    refine ⟨this.1, ?_⟩
    rw [this.2]
    simp

/-- C8: for every channel table (a `Map`, so keys are distinct), after
`stopPlayback` the table is empty and `getPlayingDevices` returns the
empty set; every snapshotted channel had its stop attempted (a throwing
stop neither survives in the table nor prevents the remaining channels
from being stopped), and `stopSound` removes the bookkeeping entry of its
file id unconditionally. -/
theorem c8_theorem (table : List ActiveSound)
    (h : (table.map (fun s => s.id)).Nodup) :
    (stopPlayback table).1 = [] ∧
    getPlayingDevices (stopPlayback table).1 = [] ∧
    (stopPlayback table).2.1 = table.map (fun s => s.id) ∧
    (∀ fid : List Char, ∀ snd ∈ (stopSound table fid).1, snd.id ≠ fid) := by
  have hrun := stopFold_run table h [] []
  have hfold1 : (stopFold table).1 = [] := hrun.1
  have hfold2 : (stopFold table).2.1 = table.map (fun s => s.id) := by
    have := hrun.2
    simpa using this
  refine ⟨?_, ?_, ?_, ?_⟩
  · simp [stopPlayback, hfold1]
  · simp [stopPlayback, hfold1, getPlayingDevices]
  · simp [stopPlayback, hfold2]
  · exact fun fid => stopSound_removes table fid

/-- C8 (witness): a concrete three-channel table, one of whose stops
throws. -/
theorem c8_witness :
    (stopPlayback [⟨['f', '1'], ['D', '1'], false⟩, ⟨['f', '2'], ['D', '2'], true⟩,
        ⟨['f', '3'], ['D', '1'], false⟩]).1 = [] ∧
    getPlayingDevices
      (stopPlayback [⟨['f', '1'], ['D', '1'], false⟩, ⟨['f', '2'], ['D', '2'], true⟩,
          ⟨['f', '3'], ['D', '1'], false⟩]).1 = [] :=
  ⟨(c8_theorem _ (by decide)).1, (c8_theorem _ (by decide)).2.1⟩

/-! ### Import then delete round trip (C9) -/

/-- Stripping the scheme that import prepended recovers the path. -/
theorem dropFileScheme_append (u : List Char) :
    dropFileScheme (fileScheme ++ u) = u := by
  have h1 : listStartsWith fileScheme (fileScheme ++ u) = true := by
    simp [fileScheme, listStartsWith]
  have h2 : (7 : Nat) = fileScheme.length := rfl
  simp only [dropFileScheme, h1, if_true]
  rw [h2, List.drop_left]

/-- `find?` skips a block in which nothing matches. -/
theorem find?_append_of_none {α : Type} (p : α → Bool) (l1 l2 : List α)
    (h : l1.find? p = none) : (l1 ++ l2).find? p = l2.find? p := by
  induction l1 with
  | nil => simp
  | cons a l ih =>
    cases hpa : p a with
    | true => rw [List.find?_cons_of_pos _ hpa] at h; cases h
    | false =>
      have hpa' : ¬p a = true := by simp [hpa]
      rw [List.find?_cons_of_neg _ hpa'] at h
      rw [List.cons_append, List.find?_cons_of_neg _ hpa']
      exact ih h

/-- C9: importing a fresh file id and then deleting it succeeds and leaves
manifest, managed storage, buffer cache and channel table with no trace of
the id: `addAudioFile` puts the bytes at the managed destination path and
appends the manifest entry, and the subsequent `deleteAudioFile` reports
`true` and removes everything again. -/
theorem c9_theorem (s : AudioState) (fid ext title : List Char)
    (dev : Option (List Char))
    (hfresh : ∀ f ∈ s.manifest.getD [], f.id ≠ fid) :
    (addAudioFile s fid ext title dev).2.id = fid ∧
    (audioDirectory ++ ['/'] ++ fid ++ ['.'] ++ ext) ∈
      (addAudioFile s fid ext title dev).1.storage ∧
    (addAudioFile s fid ext title dev).2 ∈
      (addAudioFile s fid ext title dev).1.manifest.getD [] ∧
    (deleteAudioFile (addAudioFile s fid ext title dev).1 fid).2 = true ∧
    noTrace (deleteAudioFile (addAudioFile s fid ext title dev).1 fid).1 fid
      (audioDirectory ++ ['/'] ++ fid ++ ['.'] ++ ext) := by
  have hE : ∀ f ∈ loadAudioFiles
      { s with storage := (audioDirectory ++ ['/'] ++ fid ++ ['.'] ++ ext) :: s.storage },
      f.id ≠ fid := by
    intro f hf
    unfold loadAudioFiles at hf
    cases hm : s.manifest with
    | none => rw [hm] at hf; cases hf
    | some fs =>
      rw [hm] at hf
      refine hfresh f ?_
      rw [hm]
      exact (List.mem_filter.mp hf).1
  set pr := addAudioFile s fid ext title dev with hpr
  have haddEq : pr =
      ({ storage := (audioDirectory ++ ['/'] ++ fid ++ ['.'] ++ ext) :: s.storage
         manifest := some
           (loadAudioFiles
              { s with storage := (audioDirectory ++ ['/'] ++ fid ++ ['.'] ++ ext) :: s.storage } ++
            [{ id := fid
               url := fileScheme ++ (audioDirectory ++ ['/'] ++ fid ++ ['.'] ++ ext)
               title := title, deviceId := dev, loopMode := some false }])
         buffers := s.buffers, sounds := s.sounds },
       { id := fid
         url := fileScheme ++ (audioDirectory ++ ['/'] ++ fid ++ ['.'] ++ ext)
         title := title, deviceId := dev, loopMode := some false }) := by
    rw [hpr]; rfl
  have hload : loadAudioFiles pr.1 =
      loadAudioFiles
        { s with storage := (audioDirectory ++ ['/'] ++ fid ++ ['.'] ++ ext) :: s.storage } ++
      [{ id := fid
         url := fileScheme ++ (audioDirectory ++ ['/'] ++ fid ++ ['.'] ++ ext)
         title := title, deviceId := dev, loopMode := some false }] := by
    rw [haddEq]
    unfold loadAudioFiles
    simp only
    rw [List.filter_append]
    congr 1
    · apply List.filter_eq_self.mpr
      intro a ha
      unfold loadAudioFiles at ha
      cases hm : s.manifest with
      | none => rw [hm] at ha; cases ha
      | some fs =>
        rw [hm] at ha
        simp only at ha
        simpa using List.of_mem_filter ha
    · rw [List.filter_cons]
      simp only [dropFileScheme_append]
      have hc : ((audioDirectory ++ ['/'] ++ fid ++ ['.'] ++ ext) :: s.storage).contains
          (audioDirectory ++ ['/'] ++ fid ++ ['.'] ++ ext) = true := by
        simp [List.contains_cons]
      rw [hc]
      simp
  have hfind : (loadAudioFiles pr.1).find? (fun f => f.id == fid) =
      some { id := fid
             url := fileScheme ++ (audioDirectory ++ ['/'] ++ fid ++ ['.'] ++ ext)
             title := title, deviceId := dev, loopMode := some false } := by
    rw [hload]
    rw [find?_append_of_none _ _ _ (List.find?_eq_none.mpr fun f hf => by
      simpa using hE f hf)]
    simp [List.find?_cons]
  have hdelEq : deleteAudioFile pr.1 fid =
      ({ storage := pr.1.storage.filter
           (fun q => q != audioDirectory ++ ['/'] ++ fid ++ ['.'] ++ ext)
         manifest := some
           ((loadAudioFiles pr.1).filter (fun f => f.id != fid))
         buffers := pr.1.buffers.filter (fun b => b != fid)
         sounds := (stopSound pr.1.sounds fid).1 }, true) := by
    simp only [deleteAudioFile]
    rw [hfind]
    simp only [dropFileScheme_append]
  refine ⟨?_, ?_, ?_, ?_, ?_⟩
  · rw [haddEq]
  · rw [haddEq]
    exact List.mem_cons_self _ _
  · rw [haddEq]
    simp
  · rw [hdelEq]
  · rw [hdelEq]
    refine ⟨?_, ?_, ?_, ?_⟩
    · intro f hf
      simp only [Option.getD_some] at hf
      have := List.of_mem_filter hf
      simpa using this
    · intro hmem
      have := List.of_mem_filter hmem
      simp at this
    · intro hmem
      have := List.of_mem_filter hmem
      simp at this
    · exact stopSound_removes pr.1.sounds fid

/-! ### Index lemmas for array updates (C2) -/

/-- `modifyAt` viewed through `get?`. -/
theorem modifyAt_get? {α : Type} (l : List α) (i j : Nat) (g : α → α) :
    (modifyAt l i g).get? j = if i = j then (l.get? j).map g else l.get? j := by
  induction l generalizing i j with
  | nil =>
    cases i <;> simp [modifyAt]
  | cons a rest ih =>
    cases i with
    | zero =>
      cases j with
      | zero => simp [modifyAt]
      | succ j' => simp [modifyAt]
    | succ i' =>
      cases j with
      | zero => simp [modifyAt]
      | succ j' => simpa [modifyAt] using ih i' j'

/-- `modifyAt` with an id-preserving rewrite does not change the id
column. -/
theorem modifyAt_map_id (l : List AudioFile) (i : Nat) (g : AudioFile → AudioFile)
    (hg : ∀ x, (g x).id = x.id) :
    (modifyAt l i g).map (fun f => f.id) = l.map (fun f => f.id) := by
  induction l generalizing i with
  | nil => rfl
  | cons a rest ih =>
    cases i with
    | zero => simp [modifyAt, hg]
    | succ i' => simp [modifyAt, ih i']

/-- A found index carries an element satisfying the predicate. -/
theorem findIdx?_some_get? {α : Type} (p : α → Bool) (l : List α) (i : Nat)
    (h : l.findIdx? p = some i) : ∃ x, l.get? i = some x ∧ p x = true := by
  induction l generalizing i with
  | nil => cases h
  | cons a rest ih =>
    rw [List.findIdx?_cons] at h
    by_cases hpa : p a
    · rw [if_pos hpa] at h
      cases h
      exact ⟨a, rfl, hpa⟩
    · rw [if_neg hpa, List.findIdx?_succ] at h
      cases hr : rest.findIdx? p with
      | none => rw [hr] at h; cases h
      | some k =>
        rw [hr] at h
        have hik : i = k + 1 := by
          have h2 := h
          simp at h2
          omega
        subst hik
        simpa using ih k hr

/-- When no index is found, nothing satisfies the predicate. -/
theorem findIdx?_none_all {α : Type} (p : α → Bool) (l : List α)
    (h : l.findIdx? p = none) : ∀ x ∈ l, p x = false :=
  fun x hx => List.findIdx?_eq_none_iff.mp h x hx

/-- Push a test on the id through the id column. -/
theorem all_id_map (xs : List AudioFile) (q : List Char → Bool) :
    xs.all (fun g => q g.id) = (xs.map (fun f => f.id)).all q := by
  induction xs with
  | nil => rfl
  | cons a as ih => simp only [List.all_cons, List.map_cons, ih]

/-- `idsNodup` only depends on the id column. -/
theorem idsNodup_congr (l l' : List AudioFile)
    (h : l.map (fun f => f.id) = l'.map (fun f => f.id)) :
    idsNodup l = idsNodup l' := by
  induction l generalizing l' with
  | nil => cases l' with | nil => rfl | cons b bs => cases h
  | cons a as ih =>
    cases l' with
    | nil => cases h
    | cons b bs =>
      simp only [List.map_cons, List.cons.injEq] at h
      obtain ⟨hab, hrest⟩ := h
      simp only [idsNodup]
      rw [ih bs hrest]
      congr 1
      have e1 : as.all (fun g => g.id != a.id) =
          (as.map (fun f => f.id)).all (fun y => y != a.id) :=
        all_id_map as (fun y => y != a.id)
      have e2 : bs.all (fun g => g.id != b.id) =
          (bs.map (fun f => f.id)).all (fun y => y != b.id) :=
        all_id_map bs (fun y => y != b.id)
      rw [e1, e2, hrest, hab]

/-- Distinct positions of an id-distinct manifest carry distinct ids. -/
theorem idsNodup_get (l : List AudioFile) (h : idsNodup l = true) :
    ∀ i j f g, i ≠ j → l.get? i = some f → l.get? j = some g → f.id ≠ g.id := by
  induction l with
  | nil => intro i j f g _ hi _; cases i <;> cases hi
  | cons a rest ih =>
    have h' : rest.all (fun g => g.id != a.id) = true ∧ idsNodup rest = true := by
      simpa [idsNodup] using h
    intro i j f g hij hi hj
    cases i with
    | zero =>
      cases j with
      | zero => exact absurd rfl hij
      | succ j' =>
        simp only [List.get?_cons_zero, Option.some.injEq] at hi
        simp only [List.get?_cons_succ] at hj
        subst hi
        have hgmem : g ∈ rest := List.get?_mem hj
        have := List.all_eq_true.mp h'.1 g hgmem
        intro he
        rw [he] at this
        simp at this
    | succ i' =>
      cases j with
      | zero =>
        simp only [List.get?_cons_zero, Option.some.injEq] at hj
        simp only [List.get?_cons_succ] at hi
        subst hj
        have hfmem : f ∈ rest := List.get?_mem hi
        have := List.all_eq_true.mp h'.1 f hfmem
        intro he
        rw [he] at this
        simp at this
      | succ j' =>
        simp only [List.get?_cons_succ] at hi hj
        exact ih h'.2 i' j' f g (fun e => hij (by rw [e])) hi hj

/-- Index characterization of the device-injectivity invariant. -/
theorem devicesInjective_iff (l : List AudioFile) :
    devicesInjective l = true ↔
      ∀ i j f g d, i ≠ j → l.get? i = some f → l.get? j = some g →
        f.deviceId = some d → g.deviceId ≠ some d := by
  induction l with
  | nil =>
    constructor
    · intro _ i j f g d _ hi _
      cases i <;> cases hi
    · intro _; rfl
  | cons a rest ih =>
    constructor
    · intro h i j f g d hij hi hj hf
      have h' : (a.deviceId == none || rest.all (fun g => g.deviceId != a.deviceId)) = true ∧
          devicesInjective rest = true := by
        simpa [devicesInjective] using h
      cases i with
      | zero =>
        cases j with
        | zero => exact absurd rfl hij
        | succ j' =>
          simp only [List.get?_cons_zero, Option.some.injEq] at hi
          simp only [List.get?_cons_succ] at hj
          subst hi
          have hgmem : g ∈ rest := List.get?_mem hj
          rcases Bool.or_eq_true _ _ |>.mp h'.1 with hn | hall
          · rw [hf] at hn; simp at hn
          · have := List.all_eq_true.mp hall g hgmem
            rw [hf] at this
            simpa using this
      | succ i' =>
        cases j with
        | zero =>
          simp only [List.get?_cons_zero, Option.some.injEq] at hj
          simp only [List.get?_cons_succ] at hi
          subst hj
          have hfmem : f ∈ rest := List.get?_mem hi
          rcases Bool.or_eq_true _ _ |>.mp h'.1 with hn | hall
          · intro he
            rw [he] at hn; simp at hn
          · have := List.all_eq_true.mp hall f hfmem
            intro he
            rw [hf, he] at this
            simp at this
        | succ j' =>
          simp only [List.get?_cons_succ] at hi hj
          exact (ih.mp h'.2) i' j' f g d (fun e => hij (by rw [e])) hi hj hf
    · intro h
      have htail : devicesInjective rest = true := by
        apply ih.mpr
        intro i j f g d hij hi hj hf
        exact h (i + 1) (j + 1) f g d (by omega) (by simpa using hi) (by simpa using hj) hf
      have hhead : (a.deviceId == none || rest.all (fun g => g.deviceId != a.deviceId)) = true := by
        cases hda : a.deviceId with
        | none => simp
        | some d =>
          apply Bool.or_eq_true _ _ |>.mpr
          right
          apply List.all_eq_true.mpr
          intro g hgmem
          obtain ⟨n, hn⟩ := List.mem_iff_get?.mp hgmem
          have := h 0 (n + 1) a g d (by omega) (by simp) (by simpa using hn) hda
          simpa using this
      simpa [devicesInjective] using And.intro hhead htail

/-- Full specification of one successful `mapFileToDevice` call on a
well-formed manifest: the invariant is preserved, the target file ends up
mapped to the device, no other file is mapped to it, the previously mapped
file (if any) is cleared, and every other file keeps its id and either its
mapping or a cleared one. -/
theorem mapFileToDevice_spec (files : List AudioFile) (fid did : List Char)
    (files' : List AudioFile) (hinv : manifestInv files)
    (heq : mapFileToDevice files fid did = some files') :
    manifestInv files' ∧
    (∃ g ∈ files', g.id = fid ∧ g.deviceId = some did) ∧
    (∀ g ∈ files', g.id = fid → g.deviceId = some did) ∧
    (∀ g ∈ files', g.id ≠ fid → g.deviceId ≠ some did) ∧
    (∀ f0 ∈ files, f0.id ≠ fid → f0.deviceId = some did →
      ∀ g ∈ files', g.id = f0.id → g.deviceId = none) ∧
    (∀ g ∈ files', g.id ≠ fid →
      ∃ f0 ∈ files, f0.id = g.id ∧ (g.deviceId = f0.deviceId ∨ g.deviceId = none)) := by
  obtain ⟨hids, hdevs⟩ := hinv
  have hidsget := idsNodup_get files hids
  have hdevinj := (devicesInjective_iff files).mp hdevs
  simp only [mapFileToDevice] at heq
  cases hti : files.findIdx? (fun f => f.id == fid) with
  | none => rw [hti] at heq; cases heq
  | some ti =>
    rw [hti] at heq
    simp only [Option.some.injEq] at heq
    obtain ⟨ft, hft_get, hft_p⟩ := findIdx?_some_get? _ files ti hti
    have hft_id : ft.id = fid := by simpa using hft_p
    -- the entry descriptor: each position of files' holds the target set
    -- to the device, the cleared previous holder, or an untouched original
    -- that was not mapped to the device (unless it is the target itself)
    have hmain :
        (∀ j g, files'.get? j = some g →
          ∃ f0, files.get? j = some f0 ∧ g.id = f0.id ∧
            ((ti = j ∧ g = { f0 with deviceId := some did } ∧ f0.id = fid) ∨
             (ti ≠ j ∧ g = { f0 with deviceId := none } ∧
                f0.deviceId = some did ∧ f0.id ≠ fid) ∨
             (ti ≠ j ∧ g = f0 ∧ ¬(f0.deviceId = some did ∧ f0.id ≠ fid)))) ∧
        files'.get? ti = some { ft with deviceId := some did } ∧
        files'.map (fun f => f.id) = files.map (fun f => f.id) := by
      cases hpi : files.findIdx? (fun f => f.deviceId == some did && f.id != fid) with
      | none =>
        rw [hpi] at heq
        have heq2 : modifyAt files ti
            (fun f => { f with deviceId := some did }) = files' := heq
        have hnone := findIdx?_none_all _ files hpi
        refine ⟨?_, ?_, ?_⟩
        · intro j g hg
          rw [← heq2, modifyAt_get?] at hg
          by_cases htj : ti = j
          · rw [if_pos htj] at hg
            obtain ⟨f0, hf0, hgf0⟩ := Option.map_eq_some'.mp hg
            refine ⟨f0, hf0, by rw [← hgf0], Or.inl ⟨htj, hgf0.symm, ?_⟩⟩
            subst htj
            rw [hft_get] at hf0
            cases hf0
            exact hft_id
          · rw [if_neg htj] at hg
            refine ⟨g, hg, rfl, Or.inr (Or.inr ⟨htj, rfl, ?_⟩)⟩
            rintro ⟨hd, hn⟩
            have := hnone g (List.get?_mem hg)
            rw [hd] at this
            simp [hn] at this
        · rw [← heq2, modifyAt_get?, if_pos rfl, hft_get]
          rfl
        · rw [← heq2]
          exact modifyAt_map_id files ti
            (fun f => ({ f with deviceId := some did } : AudioFile)) (fun x => rfl)
      | some pi =>
        rw [hpi] at heq
        have heq2 : modifyAt (modifyAt files pi (fun f => { f with deviceId := none }))
            ti (fun f => { f with deviceId := some did }) = files' := heq
        obtain ⟨pf, hpf_get, hpf_p⟩ := findIdx?_some_get? _ files pi hpi
        have hpf_dev : pf.deviceId = some did := by
          have := (Bool.and_eq_true _ _ |>.mp hpf_p).1
          simpa using this
        have hpf_id : pf.id ≠ fid := by
          have := (Bool.and_eq_true _ _ |>.mp hpf_p).2
          simpa using this
        have htipi : ti ≠ pi := by
          intro hq
          rw [hq, hpf_get] at hft_get
          cases hft_get
          exact hpf_id hft_id
        refine ⟨?_, ?_, ?_⟩
        · intro j g hg
          rw [← heq2, modifyAt_get?] at hg
          by_cases htj : ti = j
          · rw [if_pos htj, modifyAt_get?,
              if_neg (fun h : pi = j => htipi ((htj.trans h.symm)))] at hg
            obtain ⟨f0, hf0, hgf0⟩ := Option.map_eq_some'.mp hg
            refine ⟨f0, hf0, by rw [← hgf0], Or.inl ⟨htj, hgf0.symm, ?_⟩⟩
            subst htj
            rw [hft_get] at hf0
            cases hf0
            exact hft_id
          · rw [if_neg htj, modifyAt_get?] at hg
            by_cases hpj : pi = j
            · rw [if_pos hpj] at hg
              obtain ⟨f0, hf0, hgf0⟩ := Option.map_eq_some'.mp hg
              have hf0pf : f0 = pf := by
                subst hpj
                rw [hpf_get] at hf0
                cases hf0
                rfl
              subst hf0pf
              exact ⟨f0, hf0, by rw [← hgf0],
                Or.inr (Or.inl ⟨htj, hgf0.symm, hpf_dev, hpf_id⟩)⟩
            · rw [if_neg hpj] at hg
              refine ⟨g, hg, rfl, Or.inr (Or.inr ⟨htj, rfl, ?_⟩)⟩
              rintro ⟨hd, _⟩
              exact hdevinj j pi g pf did (fun e => hpj e.symm) hg hpf_get hd hpf_dev
        · rw [← heq2, modifyAt_get?, if_pos rfl, modifyAt_get?,
            if_neg (fun h : pi = ti => htipi h.symm), hft_get]
          rfl
        · rw [← heq2,
            modifyAt_map_id _ ti
              (fun f => ({ f with deviceId := some did } : AudioFile)) (fun x => rfl),
            modifyAt_map_id _ pi
              (fun f => ({ f with deviceId := none } : AudioFile)) (fun x => rfl)]
    obtain ⟨hdescr, hconstr, hmapid⟩ := hmain
    have hids' : idsNodup files' = true := by
      rw [idsNodup_congr files' files hmapid]
      exact hids
    refine ⟨⟨hids', ?_⟩, ?_, ?_, ?_, ?_, ?_⟩
    · -- device injectivity of the updated manifest
      apply (devicesInjective_iff files').mpr
      intro i j f g d hij hi hj hf
      obtain ⟨fi, hfi, hfid, hfc⟩ := hdescr i f hi
      obtain ⟨gj, hgj, hgid, hgc⟩ := hdescr j g hj
      intro hgdev
      rcases hgc with ⟨htj, hgeq, _⟩ | ⟨_, hgeq, _, _⟩ | ⟨htj, hgeq, hgnp⟩
      · -- g is the freshly mapped target: d = did and f is a second holder
        have hgd : d = did := by
          rw [hgeq] at hgdev
          simpa using hgdev.symm
        subst hgd
        rcases hfc with ⟨hti', _, _⟩ | ⟨_, hfeq, _, _⟩ | ⟨hti', hfeq, hfnp⟩
        · exact hij (hti'.symm.trans htj)
        · rw [hfeq] at hf; simp at hf
        · apply hfnp
          refine ⟨by rw [← hfeq]; exact hf, fun hfidfid => ?_⟩
          exact (hidsget i ti fi ft (fun e => hti' e.symm) hfi hft_get)
            (hfidfid.trans hft_id.symm)
      · rw [hgeq] at hgdev; simp at hgdev
      · -- g is an untouched original
        rcases hfc with ⟨hti', hfeq, _⟩ | ⟨_, hfeq, _, _⟩ | ⟨_, hfeq, hfnp⟩
        · -- f is the target, so d = did and g would be an untouched holder
          have hd : d = did := by
            rw [hfeq] at hf
            simpa using hf.symm
          subst hd
          apply hgnp
          refine ⟨by rw [hgeq] at hgdev; exact hgdev, fun hgjfid => ?_⟩
          exact (hidsget j ti gj ft (fun e => htj e.symm) hgj hft_get)
            (hgjfid.trans hft_id.symm)
        · rw [hfeq] at hf; simp at hf
        · rw [hfeq] at hf
          rw [hgeq] at hgdev
          exact hdevinj i j fi gj d hij hfi hgj hf hgdev
    · exact ⟨{ ft with deviceId := some did }, List.get?_mem hconstr,
        by simpa using hft_id, rfl⟩
    · intro g hg hgid
      obtain ⟨j, hj⟩ := List.mem_iff_get?.mp hg
      obtain ⟨f0, hf0, hfid, hc⟩ := hdescr j g hj
      rcases hc with ⟨_, hgeq, _⟩ | ⟨_, _, _, hf0id⟩ | ⟨htj, _, _⟩
      · rw [hgeq]
      · exact absurd (hfid.symm.trans hgid) hf0id
      · exact absurd ((hfid.symm.trans hgid).trans hft_id.symm)
          (hidsget j ti f0 ft (fun e => htj e.symm) hf0 hft_get)
    · intro g hg hgid
      obtain ⟨j, hj⟩ := List.mem_iff_get?.mp hg
      obtain ⟨f0, hf0, hfid, hc⟩ := hdescr j g hj
      rcases hc with ⟨_, _, hf0id⟩ | ⟨_, hgeq, _, _⟩ | ⟨_, hgeq, hnp⟩
      · exact absurd (hfid.trans hf0id) hgid
      · rw [hgeq]; simp
      · intro hgdev
        apply hnp
        exact ⟨by rw [← hgeq]; exact hgdev, fun h => hgid (hfid.trans h)⟩
    · intro f0 hf0mem hf0id hf0dev g hg hgid
      obtain ⟨k, hk⟩ := List.mem_iff_get?.mp hf0mem
      obtain ⟨j, hj⟩ := List.mem_iff_get?.mp hg
      obtain ⟨f1, hf1, hf1id, hc⟩ := hdescr j g hj
      have hjk : j = k := by
        by_contra hne
        exact (hidsget j k f1 f0 hne hf1 hk) (hf1id.symm.trans hgid)
      have hf1f0 : f1 = f0 := by
        subst hjk
        rw [hk] at hf1
        cases hf1
        rfl
      subst hf1f0
      rcases hc with ⟨_, _, hf1fid⟩ | ⟨_, hgeq, _, _⟩ | ⟨_, _, hnp⟩
      · exact absurd hf1fid hf0id
      · rw [hgeq]
      · exact absurd ⟨hf0dev, hf0id⟩ hnp
    · intro g hg hgid
      obtain ⟨j, hj⟩ := List.mem_iff_get?.mp hg
      obtain ⟨f0, hf0, hfid, hc⟩ := hdescr j g hj
      refine ⟨f0, List.get?_mem hf0, hfid.symm, ?_⟩
      rcases hc with ⟨_, _, hf0id⟩ | ⟨_, hgeq, _, _⟩ | ⟨_, hgeq, _⟩
      · exact absurd (hfid.trans hf0id) hgid
      · right; rw [hgeq]
      · left; rw [hgeq]


/-- C2: on every manifest satisfying the partial-injective-mapping
invariant, a successful `mapFileToDevice(fileId, deviceId)` leaves the
invariant intact, maps `fileId` to `deviceId`, clears the mapping of any
file previously mapped to `deviceId`, and maps no other file to it; in
particular mapping file A to D1 and then A to D2 (D1 ≠ D2) leaves no file
mapped to D1 and A mapped to D2. -/
theorem c2_theorem :
    (∀ (files : List AudioFile) (fid did : List Char) (files' : List AudioFile),
      manifestInv files →
      mapFileToDevice files fid did = some files' →
      manifestInv files' ∧
      (∃ g ∈ files', g.id = fid ∧ g.deviceId = some did) ∧
      (∀ g ∈ files', g.id = fid → g.deviceId = some did) ∧
      (∀ g ∈ files', g.id ≠ fid → g.deviceId ≠ some did) ∧
      (∀ f0 ∈ files, f0.id ≠ fid → f0.deviceId = some did →
        ∀ g ∈ files', g.id = f0.id → g.deviceId = none)) ∧
    (∀ (files : List AudioFile) (A D1 D2 : List Char) (files1 files2 : List AudioFile),
      manifestInv files → D1 ≠ D2 →
      mapFileToDevice files A D1 = some files1 →
      mapFileToDevice files1 A D2 = some files2 →
      (∀ g ∈ files2, g.deviceId ≠ some D1) ∧
      (∀ g ∈ files2, g.id = A → g.deviceId = some D2)) := by
  constructor
  · intro files fid did files' hinv heq
    have s := mapFileToDevice_spec files fid did files' hinv heq
    exact ⟨s.1, s.2.1, s.2.2.1, s.2.2.2.1, s.2.2.2.2.1⟩
  · intro files A D1 D2 files1 files2 hinv hD hm1 hm2
    have s1 := mapFileToDevice_spec files A D1 files1 hinv hm1
    have s2 := mapFileToDevice_spec files1 A D2 files2 s1.1 hm2
    constructor
    · intro g hg
      by_cases hgid : g.id = A
      · rw [s2.2.2.1 g hg hgid]
        exact fun hc => hD (Option.some.inj hc).symm
      · obtain ⟨f0, hf0mem, hf0id, hdev⟩ := s2.2.2.2.2.2 g hg hgid
        rcases hdev with hsame | hnone
        · rw [hsame]
          exact s1.2.2.2.1 f0 hf0mem (by rw [hf0id]; exact hgid)
        · rw [hnone]; simp
    · intro g hg hgid
      exact s2.2.2.1 g hg hgid

/-- C2 (witness): mapping file `a` to device 1 and then to device 2 on a
concrete one-file manifest. -/
theorem c2_witness :
    mapFileToDevice [⟨['a'], ['u'], ['t'], none, none⟩] ['a'] ['1'] =
      some [⟨['a'], ['u'], ['t'], some ['1'], none⟩] ∧
    mapFileToDevice [⟨['a'], ['u'], ['t'], some ['1'], none⟩] ['a'] ['2'] =
      some [⟨['a'], ['u'], ['t'], some ['2'], none⟩] ∧
    (⟨['a'], ['u'], ['t'], some ['2'], none⟩ : AudioFile).deviceId ≠ some ['1'] :=
  ⟨by decide, by decide,
    (c2_theorem.2 [⟨['a'], ['u'], ['t'], none, none⟩] ['a'] ['1'] ['2']
      [⟨['a'], ['u'], ['t'], some ['1'], none⟩] [⟨['a'], ['u'], ['t'], some ['2'], none⟩]
      ⟨by decide, by decide⟩ (by decide) (by decide) (by decide)).1
      ⟨['a'], ['u'], ['t'], some ['2'], none⟩ (by decide)⟩

/-! ### The codec's structured path (C3, C7, C10) -/

/-- On a non-`BUTTON:` text that parses as JSON, `parseESPMessage` is the
runtime validation and field assembly over the parsed object. -/
theorem parse_structured (bytes : List Nat) (now : ℚ) (data : JValue)
    (hnb : listStartsWith buttonMarker (utf8DecodeReplace bytes) = false)
    (hjson : jsonParse (utf8DecodeReplace bytes) = some data) :
    parseESPMessage bytes now =
      (match jsGet data deviceIdKey, jsGet data buttonPressedKey with
       | some dv, some (.bool b) =>
         if dv.truthy then
           some ⟨dv, b,
             (match jsGet data timestampKey with
              | some tv => if tv.truthy then tv else .num now
              | none => .num now),
             jsGet data batteryLevelKey⟩
         else none
       | _, _ => none) := by
  simp [parseESPMessage, hnb, hjson]

/-- The structured path accepts exactly a truthy `deviceId` together with
a boolean `buttonPressed`. -/
theorem structured_isSome (bytes : List Nat) (now : ℚ) (data : JValue)
    (hnb : listStartsWith buttonMarker (utf8DecodeReplace bytes) = false)
    (hjson : jsonParse (utf8DecodeReplace bytes) = some data) :
    (parseESPMessage bytes now).isSome =
      (jsTruthy (jsGet data deviceIdKey) && isBoolJ (jsGet data buttonPressedKey)) := by
  rw [parse_structured bytes now data hnb hjson]
  cases h1 : jsGet data deviceIdKey with
  | none => simp [jsTruthy]
  | some dv =>
    cases h2 : jsGet data buttonPressedKey with
    | none => simp [jsTruthy, isBoolJ]
    | some bv =>
      cases bv with
      | bool b =>
        cases hdt : dv.truthy <;> simp [jsTruthy, isBoolJ, hdt]
      | null => simp [jsTruthy, isBoolJ]
      | num q => simp [jsTruthy, isBoolJ]
      | str s => simp [jsTruthy, isBoolJ]
      | arr xs => simp [jsTruthy, isBoolJ]
      | obj fs => simp [jsTruthy, isBoolJ]

/-- C10: a structured message whose `timestamp` field is present but falsy
(for example `0`) yields an event stamped with the receipt time, exactly
as when the field is absent (`data.timestamp || Date.now()`). -/
theorem c10_theorem (bytes : List Nat) (now : ℚ) (data dv tv : JValue) (b : Bool)
    (hnb : listStartsWith buttonMarker (utf8DecodeReplace bytes) = false)
    (hjson : jsonParse (utf8DecodeReplace bytes) = some data)
    (hdev : jsGet data deviceIdKey = some dv)
    (hdt : dv.truthy = true)
    (hbp : jsGet data buttonPressedKey = some (JValue.bool b))
    (hts : jsGet data timestampKey = some tv)
    (htf : tv.truthy = false) :
    parseESPMessage bytes now = some ⟨dv, b, .num now, jsGet data batteryLevelKey⟩ := by
  rw [parse_structured bytes now data hnb hjson, hdev, hbp]
  simp [hdt, hts, htf]

/-- C10 (witness): `{"deviceId":"ESP01","buttonPressed":true,"timestamp":0}`
received at time 123 carries timestamp 123, not 0. -/
theorem c10_witness :
    parseESPMessage
      ("\x7b\"deviceId\":\"ESP01\",\"buttonPressed\":true,\"timestamp\":0\x7d".toList.map
        Char.toNat) 123 =
      some ⟨.str "ESP01".toList, true, .num 123, none⟩ :=
  c10_theorem _ 123
    (.obj [("deviceId".toList, .str "ESP01".toList),
           ("buttonPressed".toList, .bool true),
           ("timestamp".toList, .num 0)])
    (.str "ESP01".toList) (.num 0) true rfl rfl rfl rfl rfl rfl rfl

/-- C7 (counterexample): `{"deviceId":5,"buttonPressed":true}` has no
string `deviceId`, yet the codec accepts it (the check is only JavaScript
truthiness), emitting an event whose deviceId is the number 5. -/
theorem c7_counterexample :
    parseESPMessage ("\x7b\"deviceId\":5,\"buttonPressed\":true\x7d".toList.map Char.toNat) 99 =
      some ⟨.num 5, true, .num 99, none⟩ ∧
    (JValue.num 5).isStr = false :=
  ⟨rfl, rfl⟩

/-- C7 (amended): on structured input the codec accepts exactly a truthy
`deviceId` (of any runtime type — non-empty when a string, nonzero when a
number) together with a strictly boolean `buttonPressed`; when accepted,
the event's timestamp is the wire value when that value is truthy and the
receipt time otherwise (absent or falsy), and `batteryLevel` is passed
through unchanged with no range validation. -/
theorem c7_theorem (bytes : List Nat) (now : ℚ) (data : JValue)
    (hnb : listStartsWith buttonMarker (utf8DecodeReplace bytes) = false)
    (hjson : jsonParse (utf8DecodeReplace bytes) = some data) :
    ((parseESPMessage bytes now).isSome =
      (jsTruthy (jsGet data deviceIdKey) && isBoolJ (jsGet data buttonPressedKey))) ∧
    (∀ dv b, jsGet data deviceIdKey = some dv → dv.truthy = true →
      jsGet data buttonPressedKey = some (JValue.bool b) →
      ((∀ tv, jsGet data timestampKey = some tv → tv.truthy = true →
          parseESPMessage bytes now = some ⟨dv, b, tv, jsGet data batteryLevelKey⟩) ∧
       (jsGet data timestampKey = none →
          parseESPMessage bytes now = some ⟨dv, b, .num now, jsGet data batteryLevelKey⟩))) := by
  refine ⟨structured_isSome bytes now data hnb hjson, ?_⟩
  intro dv b hdev hdt hbp
  constructor
  · intro tv hts htt
    rw [parse_structured bytes now data hnb hjson, hdev, hbp]
    simp [hdt, hts, htt]
  · intro hts
    rw [parse_structured bytes now data hnb hjson, hdev, hbp]
    simp [hdt, hts]

/-- C7 (witness): the specification's own example —
`{"deviceId":"ESP01","buttonPressed":true,"batteryLevel":0.75}` is
accepted and carries batteryLevel 0.75 unchanged. -/
theorem c7_witness :
    parseESPMessage
      ("\x7b\"deviceId\":\"ESP01\",\"buttonPressed\":true,\"batteryLevel\":0.75\x7d".toList.map
        Char.toNat) 7 =
      some ⟨.str "ESP01".toList, true, .num 7, some (.num (Rat.divInt 3 4))⟩ :=
  ((c7_theorem
    ("\x7b\"deviceId\":\"ESP01\",\"buttonPressed\":true,\"batteryLevel\":0.75\x7d".toList.map
      Char.toNat) 7
    (.obj [("deviceId".toList, .str "ESP01".toList),
           ("buttonPressed".toList, .bool true),
           ("batteryLevel".toList, .num (Rat.divInt 3 4))])
    rfl rfl).2 (.str "ESP01".toList) true rfl rfl rfl).2 rfl

/-- C3 (counterexample): the byte sequence `BUTTON:<0xFF>:1` is not valid
UTF-8, yet the codec does not reject it: `Buffer.toString('utf8')` decodes
the bad byte to U+FFFD and the compact format then parses, emitting an
event (deviceId U+FFFD) instead of "no event". -/
theorem c3_counterexample :
    validUtf8 [0x42, 0x55, 0x54, 0x54, 0x4F, 0x4E, 0x3A, 0xFF, 0x3A, 0x31] = false ∧
    parseESPMessage [0x42, 0x55, 0x54, 0x54, 0x4F, 0x4E, 0x3A, 0xFF, 0x3A, 0x31] 7 =
      some ⟨.str [repl], true, .num 7, some (.num 1)⟩ :=
  ⟨by decide, rfl⟩

/-- C3 (amended): `parse` is total — for every byte sequence it returns an
event or `none`, never an exception — and it accepts exactly the inputs
whose replacement-decoded text either starts with `BUTTON:` and splits
into at least three `:`-separated parts, or parses as JSON with a truthy
`deviceId` and a boolean `buttonPressed`.  Bytes that are not valid UTF-8
are decoded with U+FFFD replacements first and may therefore still produce
an event. -/
theorem c3_theorem (bytes : List Nat) (now : ℚ) :
    (parseESPMessage bytes now).isSome = codecAccepts (utf8DecodeReplace bytes) := by
  cases hb : listStartsWith buttonMarker (utf8DecodeReplace bytes) with
  | true =>
    by_cases h3 : 3 ≤ (splitOnChar ':' (utf8DecodeReplace bytes)).length <;>
      simp [parseESPMessage, codecAccepts, hb, h3]
  | false =>
    cases hj : jsonParse (utf8DecodeReplace bytes) with
    | none => simp [parseESPMessage, codecAccepts, hb, hj]
    | some data =>
      rw [structured_isSome bytes now data hb hj]
      simp [codecAccepts, hb, hj]

/-! ### Device reconciliation (C6) -/

/-- A map that fixes every element of a list leaves it unchanged. -/
theorem map_eq_self_of_fixed {α : Type} (f : α → α) (l : List α)
    (h : ∀ a ∈ l, f a = a) : l.map f = l := by
  induction l with
  | nil => rfl
  | cons a rest ih =>
    rw [List.map_cons, h a (List.mem_cons_self a rest),
      ih fun b hb => h b (List.mem_cons.mpr (Or.inr hb))]

/-- With distinct ids, `updateDevice` rewrites exactly the entries whose id
matches (there is one) and fixes everything else. -/
theorem updateDevice_eq_map (devices : List ESPDevice) (id : String) (ts : ℚ)
    (bat : Option ℚ) (hnd : deviceIdsNodup devices = true)
    (hex : ∃ d ∈ devices, d.id = id) :
    updateDevice devices id ts bat =
      devices.map (fun g =>
        if g.id = id then { g with lastSeen := some ts, batteryLevel := bat } else g) := by
  induction devices with
  | nil => obtain ⟨d, hd, -⟩ := hex; cases hd
  | cons d rest ih =>
    have hnd' : (∀ g ∈ rest, ¬g.id = d.id) ∧ deviceIdsNodup rest := by
      simpa [deviceIdsNodup] using hnd
    by_cases hdid : d.id = id
    · have hfi : (d :: rest).findIdx? (fun g => g.id == id) = some 0 := by
        rw [List.findIdx?_cons]
        simp [hdid]
      rw [updateDevice, hfi]
      simp only [modifyAt]
      rw [List.map_cons, if_pos hdid,
        map_eq_self_of_fixed _ rest fun g hg => if_neg (by
          rw [← hdid]; exact hnd'.1 g hg)]
    · have hfi : (d :: rest).findIdx? (fun g => g.id == id) =
          (rest.findIdx? (fun g => g.id == id)).map (· + 1) := by
        rw [List.findIdx?_cons]
        simp [hdid]
      have hex' : ∃ g ∈ rest, g.id = id := by
        obtain ⟨g, hg, hgid⟩ := hex
        rcases List.mem_cons.mp hg with h | h
        · exact absurd (h ▸ hgid) hdid
        · exact ⟨g, h, hgid⟩
      have ihr := ih hnd'.2 hex'
      rw [updateDevice] at ihr ⊢
      rw [hfi]
      cases hrest : rest.findIdx? (fun g => g.id == id) with
      | none =>
        rw [hrest] at ihr
        rw [List.map_cons, if_neg hdid, ← ihr]
        rfl
      | some i =>
        rw [hrest] at ihr
        show d :: modifyAt rest i _ = _
        rw [List.map_cons, if_neg hdid, ← ihr]

/-- C6: reconciliation of one event into a registry with distinct ids.  An
unknown device id is appended as a new device whose display name derives
from the id, with last-seen the event timestamp and battery the event's
battery; a known id is rewritten (last-seen and battery, nothing else)
exactly when the event is a button press, and a non-press event from a
known device changes nothing. -/
theorem c6_theorem (devices : List ESPDevice) (e : EspEvent)
    (hnd : deviceIdsNodup devices = true) :
    ((∀ d ∈ devices, d.id ≠ e.deviceId) →
      handleESPMessage devices e = devices ++ [newDeviceFor e]) ∧
    (∀ d ∈ devices, d.id = e.deviceId →
      (e.buttonPressed = false → handleESPMessage devices e = devices) ∧
      (e.buttonPressed = true →
        handleESPMessage devices e =
          devices.map (fun g =>
            if g.id = e.deviceId then
              { g with lastSeen := some e.timestamp, batteryLevel := e.batteryLevel }
            else g))) := by
  constructor
  · intro hall
    have hfind : devices.find? (fun g => g.id == e.deviceId) = none :=
      List.find?_eq_none.mpr fun g hg => by simpa using hall g hg
    have hany : devices.any (fun g => g.id == (newDeviceFor e).id) = false := by
      rw [List.any_eq_false]
      intro g hg
      simpa [newDeviceFor] using hall g hg
    rw [handleESPMessage, hfind]
    simp only [addDevice, hany]
    simp
  · intro d hd hid
    have hfind : (devices.find? (fun g => g.id == e.deviceId)).isSome = true := by
      rw [List.find?_isSome]
      exact ⟨d, hd, by simpa using hid⟩
    constructor
    · intro hbp
      rw [handleESPMessage]
      cases hf : devices.find? (fun g => g.id == e.deviceId) with
      | none => rw [hf] at hfind; cases hfind
      | some g => simp [hbp]
    · intro hbp
      rw [handleESPMessage]
      cases hf : devices.find? (fun g => g.id == e.deviceId) with
      | none => rw [hf] at hfind; cases hfind
      | some g =>
        simp only [hbp, if_true]
        exact updateDevice_eq_map devices e.deviceId e.timestamp e.batteryLevel hnd
          ⟨d, hd, hid⟩

/-- C6 (witness): an unknown id creates a device; a known id updates on a
press and is untouched by a non-press ping. -/
theorem c6_witness :
    handleESPMessage [] ⟨"ESP01", false, 5, none⟩ =
      [⟨"ESP01", "ESP Button ESP01", some 5, none, none⟩] ∧
    handleESPMessage [⟨"ESP01", "ESP Button ESP01", some 5, none, none⟩]
        ⟨"ESP01", false, 9, some 1⟩ =
      [⟨"ESP01", "ESP Button ESP01", some 5, none, none⟩] ∧
    handleESPMessage [⟨"ESP01", "ESP Button ESP01", some 5, none, none⟩]
        ⟨"ESP01", true, 9, some 1⟩ =
      [⟨"ESP01", "ESP Button ESP01", some 9, some 1, none⟩] := by
  refine ⟨?_, ?_, ?_⟩
  · exact (c6_theorem [] ⟨"ESP01", false, 5, none⟩ (by decide)).1 (by simp)
  · exact (( c6_theorem [⟨"ESP01", "ESP Button ESP01", some 5, none, none⟩]
      ⟨"ESP01", false, 9, some 1⟩ (by decide)).2 _ (List.mem_cons_self _ _) rfl).1 rfl
  · rw [(( c6_theorem [⟨"ESP01", "ESP Button ESP01", some 5, none, none⟩]
      ⟨"ESP01", true, 9, some 1⟩ (by decide)).2 _ (List.mem_cons_self _ _) rfl).2 rfl]
    simp

/-- C9 (witness): importing a file into the empty service state and
deleting it again. -/
theorem c9_witness :
    (deleteAudioFile (addAudioFile ⟨[], none, [], []⟩ ['1'] ['m'] ['t'] none).1 ['1']).2 = true ∧
    noTrace (deleteAudioFile (addAudioFile ⟨[], none, [], []⟩ ['1'] ['m'] ['t'] none).1 ['1']).1
      ['1'] (audioDirectory ++ ['/'] ++ ['1'] ++ ['.'] ++ ['m']) :=
  ⟨(c9_theorem ⟨[], none, [], []⟩ ['1'] ['m'] ['t'] none (by simp)).2.2.2.1,
   (c9_theorem ⟨[], none, [], []⟩ ['1'] ['m'] ['t'] none (by simp)).2.2.2.2⟩

/-! ### Mutual exclusion of listener starts and stops (C4) -/

/-- Replacing one position changes `countP` by the difference of the old
and new elements' counts. -/
theorem countP_modifyAt {α : Type} (p : α → Bool) (ts : List α) (i : Nat) (t t' : α)
    (hti : ts.get? i = some t) :
    (modifyAt ts i (fun _ => t')).countP p + (if p t then 1 else 0) =
      ts.countP p + (if p t' then 1 else 0) := by
  induction ts generalizing i with
  | nil => simp at hti
  | cons a rest ih =>
    cases i with
    | zero =>
      simp only [List.get?_cons_zero, Option.some.injEq] at hti
      subst hti
      simp only [modifyAt, List.countP_cons]
      omega
    | succ i' =>
      simp only [List.get?_cons_succ] at hti
      simp only [modifyAt, List.countP_cons]
      have := ih i' hti
      omega

/-- Two distinct positions both satisfying the predicate force a count of
at least two. -/
theorem two_le_countP {α : Type} (p : α → Bool) (ts : List α) (i j : Nat) (t t' : α)
    (hij : i ≠ j) (hi : ts.get? i = some t) (hj : ts.get? j = some t')
    (hp : p t = true) (hp' : p t' = true) : 2 ≤ ts.countP p := by
  induction ts generalizing i j with
  | nil => simp at hi
  | cons a rest ih =>
    cases i with
    | zero =>
      simp only [List.get?_cons_zero, Option.some.injEq] at hi
      subst hi
      cases j with
      | zero => exact absurd rfl hij
      | succ j' =>
        simp only [List.get?_cons_succ] at hj
        have h1 : 0 < rest.countP p := List.countP_pos_iff.mpr ⟨t', List.get?_mem hj, hp'⟩
        rw [List.countP_cons, hp, if_pos rfl]
        omega
    | succ i' =>
      cases j with
      | zero =>
        simp only [List.get?_cons_zero, Option.some.injEq] at hj
        subst hj
        simp only [List.get?_cons_succ] at hi
        have h1 : 0 < rest.countP p := List.countP_pos_iff.mpr ⟨t, List.get?_mem hi, hp⟩
        rw [List.countP_cons, hp', if_pos rfl]
        omega
      | succ j' =>
        simp only [List.get?_cons_succ] at hi hj
        have := ih i' j' (fun e => hij (by rw [e])) hi hj
        simp only [List.countP_cons]
        omega

/-- A task outside the critical section puts no constraint on the shared
state. -/
theorem sockInvAt_of_not_critical (m : MState) (t : TaskState)
    (h : critical t = false) : sockInvAt m t := by
  cases t <;> simp_all [critical, sockInvAt]

/-- The invariant holds initially for any queue of fresh start and stop
calls. -/
theorem inv_init (ts0 : List TaskState)
    (h0 : ∀ t ∈ ts0, t = TaskState.startReady ∨ t = TaskState.stopReady) :
    Inv (initM, ts0) := by
  have hz : ts0.countP critical = 0 := by
    apply List.countP_eq_zero.mpr
    intro t ht
    rcases h0 t ht with rfl | rfl <;> simp [critical]
  refine ⟨?_, ?_, rfl, ?_, ?_⟩
  · show ts0.countP critical ≤ 1
    omega
  · show (false = true ↔ ts0.countP critical = 1)
    simp [hz]
  · intro t ht
    rcases h0 t ht with rfl | rfl <;> exact trivial
  · intro _
    refine ⟨fun h => ?_, fun _ => rfl⟩
    simp [initM] at h

/-- One scheduler step preserves the invariant. -/
theorem inv_step {c c' : Config} (h : Inv c) (hs : Step c c') : Inv c' := by
  obtain ⟨m, ts⟩ := c
  obtain ⟨i, ok, t, hti, htd, rfl⟩ := hs
  obtain ⟨hcnt, hiff, hlost, hsock, hcons⟩ := h
  dsimp only at hcnt hiff hlost hsock hcons hti
  simp only [stepAt, hti]
  have hmem_split : ∀ (tt : TaskState) (t'' : TaskState),
      t'' ∈ modifyAt ts i (fun _ => tt) → t'' = tt ∨ ∃ j, i ≠ j ∧ ts.get? j = some t'' := by
    intro tt t'' hmem
    obtain ⟨j, hj⟩ := List.mem_iff_get?.mp hmem
    rw [modifyAt_get?] at hj
    by_cases hij : i = j
    · rw [if_pos hij] at hj
      subst hij
      rw [hti] at hj
      simp only [Option.map_some', Option.some.injEq] at hj
      exact Or.inl hj.symm
    · rw [if_neg hij] at hj
      exact Or.inr ⟨j, hij, hj⟩
  have hcntrel : ∀ tt : TaskState,
      (modifyAt ts i (fun _ => tt)).countP critical + (if critical t then 1 else 0) =
        ts.countP critical + (if critical tt then 1 else 0) :=
    fun tt => countP_modifyAt critical ts i t tt hti
  have huniq : critical t = true → ∀ j t'', i ≠ j → ts.get? j = some t'' →
      critical t'' = false := by
    intro hct j t'' hij hj
    by_contra hcrit
    rw [Bool.not_eq_false] at hcrit
    have := two_le_countP critical ts i j t t'' hij hti hj hct hcrit
    omega
  cases t with
  | done => exact absurd rfl htd
  | startReady =>
    simp only [taskStep]
    by_cases hg : (m.bindingOrClosing || m.isListening) = true
    · rw [if_pos hg]
      have hc := hcntrel TaskState.done
      simp [critical] at hc
      refine ⟨by dsimp only; omega, ?_, hlost, ?_, ?_⟩
      · show m.bindingOrClosing = true ↔ _
        dsimp only
        rw [hc]
        exact hiff
      · intro t'' hmem
        rcases hmem_split TaskState.done t'' hmem with rfl | ⟨j, hij, hj⟩
        · exact trivial
        · exact hsock t'' (List.get?_mem hj)
      · dsimp only
        rw [hc]
        exact hcons
    · rw [if_neg hg]
      have hflag : m.bindingOrClosing = false ∧ m.isListening = false := by
        simpa using hg
      have hcnt0 : ts.countP critical = 0 := by
        by_contra hne
        have h1 : ts.countP critical = 1 := by omega
        have := hiff.mpr h1
        rw [hflag.1] at this
        cases this
      have hc := hcntrel TaskState.startLoading
      simp [critical] at hc
      refine ⟨by dsimp only; omega, ?_, hlost, ?_, ?_⟩
      · dsimp only
        constructor
        · intro _; omega
        · intro _; rfl
      · intro t'' hmem
        rcases hmem_split TaskState.startLoading t'' hmem with rfl | ⟨j, hij, hj⟩
        · exact ⟨rfl, hflag.2⟩
        · have hnc : critical t'' = false := by
            have := List.countP_eq_zero.mp hcnt0 t'' (List.get?_mem hj)
            simpa using this
          exact sockInvAt_of_not_critical _ _ hnc
      · dsimp only
        intro h0
        omega
  | startLoading =>
    have hcn1 : ts.countP critical = 1 := by
      have hpos : 0 < ts.countP critical :=
        List.countP_pos_iff.mpr ⟨TaskState.startLoading, List.get?_mem hti, by simp [critical]⟩
      omega
    have hsi : m.socket = none ∧ m.isListening = false := hsock _ (List.get?_mem hti)
    have huq := huniq (by simp [critical])
    cases ok with
    | true =>
      simp only [taskStep]
      have hc := hcntrel TaskState.startBinding
      simp [critical] at hc
      refine ⟨by dsimp only; omega, ?_, ?_, ?_, ?_⟩
      · show m.bindingOrClosing = true ↔ _
        dsimp only
        exact ⟨fun _ => by omega, fun _ => hiff.mpr hcn1⟩
      · show m.lostBound + (if m.socket = some true then 1 else 0) = 0
        rw [hsi.1, hlost]
        simp
      · intro t'' hmem
        rcases hmem_split TaskState.startBinding t'' hmem with rfl | ⟨j, hij, hj⟩
        · exact ⟨rfl, hsi.2⟩
        · exact sockInvAt_of_not_critical _ _ (huq j t'' hij hj)
      · dsimp only
        intro h0
        omega
    | false =>
      simp only [taskStep]
      have hc := hcntrel TaskState.done
      simp [critical] at hc
      refine ⟨by dsimp only; omega, ?_, hlost, ?_, ?_⟩
      · show false = true ↔ _
        dsimp only
        constructor
        · intro h; cases h
        · intro h; omega
      · intro t'' hmem
        rcases hmem_split TaskState.done t'' hmem with rfl | ⟨j, hij, hj⟩
        · exact trivial
        · exact sockInvAt_of_not_critical _ _ (huq j t'' hij hj)
      · intro _
        refine ⟨fun h => ?_, fun _ => rfl⟩
        cases h
  | startBinding =>
    have hcn1 : ts.countP critical = 1 := by
      have hpos : 0 < ts.countP critical :=
        List.countP_pos_iff.mpr ⟨TaskState.startBinding, List.get?_mem hti, by simp [critical]⟩
      omega
    have hsi : m.socket = some false ∧ m.isListening = false := hsock _ (List.get?_mem hti)
    have huq := huniq (by simp [critical])
    cases ok with
    | true =>
      simp only [taskStep]
      have hc := hcntrel TaskState.done
      simp [critical] at hc
      refine ⟨by dsimp only; omega, ?_, hlost, ?_, ?_⟩
      · show false = true ↔ _
        dsimp only
        constructor
        · intro h; cases h
        · intro h; omega
      · intro t'' hmem
        rcases hmem_split TaskState.done t'' hmem with rfl | ⟨j, hij, hj⟩
        · exact trivial
        · exact sockInvAt_of_not_critical _ _ (huq j t'' hij hj)
      · intro _
        refine ⟨fun _ => rfl, fun h => ?_⟩
        cases h
    | false =>
      simp only [taskStep]
      have hc := hcntrel TaskState.done
      simp [critical] at hc
      refine ⟨by dsimp only; omega, ?_, hlost, ?_, ?_⟩
      · show false = true ↔ _
        dsimp only
        constructor
        · intro h; cases h
        · intro h; omega
      · intro t'' hmem
        rcases hmem_split TaskState.done t'' hmem with rfl | ⟨j, hij, hj⟩
        · exact trivial
        · exact sockInvAt_of_not_critical _ _ (huq j t'' hij hj)
      · intro _
        refine ⟨fun h => ?_, fun _ => rfl⟩
        cases h
  | stopReady =>
    simp only [taskStep]
    by_cases hg : (m.bindingOrClosing || !m.isListening) = true
    · rw [if_pos hg]
      have hc := hcntrel TaskState.done
      simp [critical] at hc
      refine ⟨by dsimp only; omega, ?_, hlost, ?_, ?_⟩
      · show m.bindingOrClosing = true ↔ _
        dsimp only
        rw [hc]
        exact hiff
      · intro t'' hmem
        rcases hmem_split TaskState.done t'' hmem with rfl | ⟨j, hij, hj⟩
        · exact trivial
        · exact hsock t'' (List.get?_mem hj)
      · dsimp only
        rw [hc]
        exact hcons
    · rw [if_neg hg]
      have hflag : m.bindingOrClosing = false ∧ m.isListening = true := by
        simpa using hg
      have hcnt0 : ts.countP critical = 0 := by
        by_contra hne
        have h1 : ts.countP critical = 1 := by omega
        have := hiff.mpr h1
        rw [hflag.1] at this
        cases this
      have hc := hcntrel TaskState.stopWaiting
      simp [critical] at hc
      refine ⟨by dsimp only; omega, ?_, hlost, ?_, ?_⟩
      · dsimp only
        exact ⟨fun _ => by omega, fun _ => rfl⟩
      · intro t'' hmem
        rcases hmem_split TaskState.stopWaiting t'' hmem with rfl | ⟨j, hij, hj⟩
        · exact ⟨rfl, rfl⟩
        · have hnc : critical t'' = false := by
            have := List.countP_eq_zero.mp hcnt0 t'' (List.get?_mem hj)
            simpa using this
          exact sockInvAt_of_not_critical _ _ hnc
      · dsimp only
        intro h0
        omega
  | stopWaiting =>
    have hcn1 : ts.countP critical = 1 := by
      have hpos : 0 < ts.countP critical :=
        List.countP_pos_iff.mpr ⟨TaskState.stopWaiting, List.get?_mem hti, by simp [critical]⟩
      omega
    have hsi : m.socket = none ∧ m.isListening = false := hsock _ (List.get?_mem hti)
    have huq := huniq (by simp [critical])
    simp only [taskStep]
    have hc := hcntrel TaskState.done
    simp [critical] at hc
    refine ⟨by dsimp only; omega, ?_, hlost, ?_, ?_⟩
    · show false = true ↔ _
      dsimp only
      constructor
      · intro h; cases h
      · intro h; omega
    · intro t'' hmem
      rcases hmem_split TaskState.done t'' hmem with rfl | ⟨j, hij, hj⟩
      · exact trivial
      · exact sockInvAt_of_not_critical _ _ (huq j t'' hij hj)
    · intro _
      refine ⟨fun h => ?_, fun _ => hsi.1⟩
      rw [hsi.2] at h
      cases h

/-- The invariant holds at every configuration reachable from a queue of
fresh start and stop calls. -/
theorem inv_reachable (ts0 : List TaskState)
    (h0 : ∀ t ∈ ts0, t = TaskState.startReady ∨ t = TaskState.stopReady)
    (c : Config) (hr : Relation.ReflTransGen Step (initM, ts0) c) : Inv c := by
  induction hr with
  | refl => exact inv_init ts0 h0
  | tail _ hstep ih => exact inv_step ih hstep

/-- C4: however any number of `startListener`/`stopListener` calls
interleave at their await points and callbacks, at most one socket is
bound at any time (no bound socket is ever leaked, and the single
`globalSocket` slot holds the only other candidate); and two concurrent
`start()` calls from the idle state, with the bind succeeding, always end
with exactly one bound, listening socket — the guard turns the second call
into a no-op. -/
theorem c4_theorem :
    (∀ (ts0 : List TaskState) (c : Config),
      (∀ t ∈ ts0, t = TaskState.startReady ∨ t = TaskState.stopReady) →
      Relation.ReflTransGen Step (initM, ts0) c →
      boundCount c.1 ≤ 1) ∧
    (∀ c ∈ allTerminalsOk 8 (initM, [TaskState.startReady, TaskState.startReady]),
      boundCount c.1 = 1 ∧ c.1.isListening = true) := by
  constructor
  · intro ts0 c h0 hr
    have hinv := inv_reachable ts0 h0 c hr
    have hl : c.1.lostBound = 0 := hinv.2.2.1
    unfold boundCount
    rw [hl]
    split <;> omega
  · decide

/-- C4 (witness): one scheduler step into the two-concurrent-starts
scenario, reached through the step relation. -/
theorem c4_witness :
    boundCount (stepAt (initM, [TaskState.startReady, TaskState.startReady]) 0 true).1 ≤ 1 :=
  c4_theorem.1 [TaskState.startReady, TaskState.startReady] _
    (by decide)
    (Relation.ReflTransGen.single
      ⟨0, true, TaskState.startReady, rfl, by decide, rfl⟩)

end AudioTrigger
